import Mathlib

/- Verification of the range-check elimination pass of the JIT compiler
   (src/src/jit/rangecheck.cpp) against its natural-language specification.

   The pass is embedded shallowly: IR trees, basic blocks and statements are
   identified by natural-number ids, and every external collaborator declared
   in section 6 of the specification (the value-number store, the assertion
   store, the basic-block tables, the def map produced by the external tree
   walker) is a field of an `Env` record.  The mutable per-pass state
   (range cache, overflow cache, search path, visit budget, current bounds
   check) is threaded explicitly through every function as an `RCState`.
   C++ recursion is modelled with an explicit fuel parameter; every
   recursive call strictly decreases the fuel, and exhausted fuel returns
   the conservative default of the corresponding engine.  All statements
   about the engines quantify over the fuel, and concrete executions are
   run with fuel comfortably larger than the depth of the trace. -/

namespace RC

/-- genTreeOps operators used by the pass (GT_COMMA, GT_ARR_BOUNDS_CHECK,
GT_LCL_VAR, GT_PHI_ARG, GT_CNS_INT, GT_ADD, GT_SUB, GT_PHI, GT_ASG,
GT_ASG_ADD and the relational operators), collapsed to one inductive as in
the single C++ enum; every operator the pass does not inspect is OTHER. -/
inductive Gop where
  | COMMA
  | ARR_BOUNDS_CHECK
  | LCL_VAR
  | PHI_ARG
  | CNS_INT
  | ADD
  | SUB
  | PHI
  | ASG
  | ASG_ADD
  | LT
  | LE
  | GE
  | GT
  | NONE
  | OTHER
deriving DecidableEq

/-- var_types of a tree or value number: TYP_INT, TYP_LONG, TYP_ULONG and
everything else. -/
inductive Typ where
  | INT
  | LONG
  | ULONG
  | OTHER
deriving DecidableEq

/-- bbJumpKind of a basic block, restricted to the kinds MergeAssertion
distinguishes (BBJ_COND, BBJ_ALWAYS, everything else). -/
inductive JumpKind where
  | COND
  | ALWAYS
  | OTHER
deriving DecidableEq

/-- GenTree::ReverseRelop restricted to the relational operators that reach
MergeEdgeAssertions. -/
def ReverseRelop : Gop → Gop
  | .LT => .GE
  | .LE => .GT
  | .GE => .LT
  | .GT => .LE
  | g => g

/-- ValueNumStore::NoVN. -/
def noVN : Nat := 0

/-- INT32_MAX. -/
def intMax : Int := 2147483647

/-- INT32_MIN. -/
def intMin : Int := -2147483648

/-- IntAddOverflows: the 32-bit signed addition of the two values overflows. -/
def IntAddOverflows (a b : Int) : Bool :=
  decide (a + b < intMin ∨ intMax < a + b)

/-- Limit variant tags from rangecheck.h (the spec data model, section 3). -/
inductive LimitTyp where
  | keUndef
  | keUnknown
  | keDependent
  | keConstant
  | keArray
  | keBinOpArray
  | keSsaVar
  | keBinOp
deriving DecidableEq

/-- Modelled from the spec: Limit is a tagged symbolic quantity carrying a
variant tag, a value number and a 32-bit constant (rangecheck.h is not among
the sources; the record layout follows section 3 of the spec, which gives
all variants a value-number field and a constant field, matching the uses in
rangecheck.cpp such as reading limit.vn of a Constant limit). -/
structure Limit where
  type : LimitTyp
  vn : Nat
  cns : Int
deriving DecidableEq

def Limit.IsUndef : Limit → Bool
  | ⟨.keUndef, _, _⟩ => true
  | _ => false

def Limit.IsUnknown : Limit → Bool
  | ⟨.keUnknown, _, _⟩ => true
  | _ => false

def Limit.IsDependent : Limit → Bool
  | ⟨.keDependent, _, _⟩ => true
  | _ => false

def Limit.IsConstant : Limit → Bool
  | ⟨.keConstant, _, _⟩ => true
  | _ => false

def Limit.IsArray : Limit → Bool
  | ⟨.keArray, _, _⟩ => true
  | _ => false

def Limit.IsBinOpArray : Limit → Bool
  | ⟨.keBinOpArray, _, _⟩ => true
  | _ => false

/-- Limit.GetConstant reads the constant field. -/
def Limit.GetConstant (l : Limit) : Int := l.cns

def undefLimit : Limit := ⟨.keUndef, noVN, 0⟩

def unknownLimit : Limit := ⟨.keUnknown, noVN, 0⟩

def dependentLimit : Limit := ⟨.keDependent, noVN, 0⟩

def constLimit (c : Int) : Limit := ⟨.keConstant, noVN, c⟩

/-- Modelled from the spec: Limit.AddConstant (rangecheck.h is not among the
sources).  Section 4.1: for Constant(c) and BinOpArray(v,c) it attempts c+k
with 32-bit overflow detection and reports failure on overflow, leaving the
limit unchanged (modelled by returning none).  Subtracting or adding a
constant to an Array(v) limit yields BinOpArray(v,k), forced by the data
model (section 4.3 step 2 adjusts an array-length limit by one).  The
remaining variants never reach an AddConstant call site in rangecheck.cpp
(MergeEdgeAssertions asserts the limit is Constant, Array or BinOpArray)
and are mapped to failure. -/
def Limit.AddConstant (l : Limit) (k : Int) : Option Limit :=
  match l.type with
  | .keConstant =>
      if IntAddOverflows l.cns k then none else some ⟨.keConstant, l.vn, l.cns + k⟩
  | .keBinOpArray =>
      if IntAddOverflows l.cns k then none else some ⟨.keBinOpArray, l.vn, l.cns + k⟩
  | .keArray => some ⟨.keBinOpArray, l.vn, k⟩
  | _ => none

/-- Range is the pair of limits denoting the closed interval. -/
structure Range where
  lLimit : Limit
  uLimit : Limit
deriving DecidableEq

def unknownRange : Range := ⟨unknownLimit, unknownLimit⟩

def undefRange : Range := ⟨undefLimit, undefLimit⟩

def dependentRange : Range := ⟨dependentLimit, dependentLimit⟩

def constRange (c : Int) : Range := ⟨constLimit c, constLimit c⟩

/-- Modelled from the spec: the per-endpoint addition algebra of
RangeOps::Add, section 4.1 (rangecheck.h is not among the sources).
Constant plus Constant is Constant of the sum (Unknown on overflow);
Constant plus Array is BinOpArray; Constant plus BinOpArray is BinOpArray
of the summed offset (Unknown on overflow); two array-valued limits give
Unknown; anything involving Unknown gives Unknown; anything involving
Dependent and a non-Unknown gives Dependent; any variant the spec does not
list gives Unknown. -/
def addLimit (l1 l2 : Limit) : Limit :=
  if l1.IsUnknown || l2.IsUnknown then unknownLimit
  else if l1.IsDependent || l2.IsDependent then dependentLimit
  else if l1.IsConstant && l2.IsConstant then
    if IntAddOverflows l1.cns l2.cns then unknownLimit else constLimit (l1.cns + l2.cns)
  else if l1.IsConstant && l2.IsArray then ⟨.keBinOpArray, l2.vn, l1.cns⟩
  else if l1.IsArray && l2.IsConstant then ⟨.keBinOpArray, l1.vn, l2.cns⟩
  else if l1.IsConstant && l2.IsBinOpArray then
    if IntAddOverflows l1.cns l2.cns then unknownLimit else ⟨.keBinOpArray, l2.vn, l1.cns + l2.cns⟩
  else if l1.IsBinOpArray && l2.IsConstant then
    if IntAddOverflows l1.cns l2.cns then unknownLimit else ⟨.keBinOpArray, l1.vn, l1.cns + l2.cns⟩
  else unknownLimit

/-- RangeOps::Add, elementwise on both endpoints (spec section 4.1). -/
def RangeAdd (r1 r2 : Range) : Range :=
  ⟨addLimit r1.lLimit r2.lLimit, addLimit r1.uLimit r2.uLimit⟩

/-- Modelled from the spec: the meet of two lower limits used by
RangeOps::Merge, section 4.1 (rangecheck.h is not among the sources).
Unknown absorbs; Dependent is absorbed by a concrete value iff monotonic,
otherwise Dependent is sticky; two concrete values of the same form take
the smaller constant (the meet, toward minus infinity); concrete values
that disagree in form yield Unknown. -/
def mergeLimitLow (l1 l2 : Limit) (monotonic : Bool) : Limit :=
  if l1.IsUnknown || l2.IsUnknown then unknownLimit
  else if l1.IsDependent && l2.IsDependent then dependentLimit
  else if l1.IsDependent then (if monotonic then l2 else dependentLimit)
  else if l2.IsDependent then (if monotonic then l1 else dependentLimit)
  else if l1.IsConstant && l2.IsConstant then constLimit (min l1.cns l2.cns)
  else if l1.IsArray && l2.IsArray && l1.vn == l2.vn then l1
  else if l1.IsBinOpArray && l2.IsBinOpArray && l1.vn == l2.vn then
    ⟨.keBinOpArray, l1.vn, min l1.cns l2.cns⟩
  else unknownLimit

/-- Modelled from the spec: the join of two upper limits used by
RangeOps::Merge (same lattice as the meet with the larger constant taken,
toward plus infinity, so that the merged range contains both arguments). -/
def mergeLimitHigh (l1 l2 : Limit) (monotonic : Bool) : Limit :=
  if l1.IsUnknown || l2.IsUnknown then unknownLimit
  else if l1.IsDependent && l2.IsDependent then dependentLimit
  else if l1.IsDependent then (if monotonic then l2 else dependentLimit)
  else if l2.IsDependent then (if monotonic then l1 else dependentLimit)
  else if l1.IsConstant && l2.IsConstant then constLimit (max l1.cns l2.cns)
  else if l1.IsArray && l2.IsArray && l1.vn == l2.vn then l1
  else if l1.IsBinOpArray && l2.IsBinOpArray && l1.vn == l2.vn then
    ⟨.keBinOpArray, l1.vn, max l1.cns l2.cns⟩
  else unknownLimit

/-- Modelled from the spec: RangeOps::Merge (rangecheck.h is not among the
sources).  Lower is the meet of the lower limits, upper the join of the
upper limits.  A range whose endpoints are still the transient Undef
placeholder (section 3) acts as the identity of the fold over phi
arguments; the concrete scenario of spec section 8 (the canonical counted
loop whose phi range must come out concrete) forces this reading. -/
def RangeMerge (r1 r2 : Range) (monotonic : Bool) : Range :=
  if r1.lLimit.IsUndef || r1.uLimit.IsUndef then r2
  else if r2.lLimit.IsUndef || r2.uLimit.IsUndef then r1
  else ⟨mergeLimitLow r1.lLimit r2.lLimit monotonic, mergeLimitHigh r1.uLimit r2.uLimit monotonic⟩

/-- Location of an SSA definition: (block, statement, tree, parent), as in
RangeCheck::Location. -/
structure Location where
  block : Nat
  stmt : Nat
  tree : Nat
  parent : Nat
deriving DecidableEq

/-- Shape of the predicate value number of an assertion, as recognized by
the three external classifiers IsVNArrLenArithBound / IsVNArrLenBound /
IsVNConstantBound and their Get...Info accessors (spec sections 4.3 and 6).
Each carries the compared value number, the relational operator, and either
the array value number (with the arithmetic operator and its operand for
the arith form) or the constant bound. -/
inductive BoundShape where
  | unrecognized
  | arrLenArith (cmpOp : Nat) (cmpOper : Gop) (vnArray : Nat) (arrOper : Gop) (arrOp : Nat)
  | arrLen (cmpOp : Nat) (cmpOper : Gop) (vnArray : Nat)
  | constBound (cmpOpVN : Nat) (cmpOper : Gop) (constVal : Int)
deriving DecidableEq

/-- An assertion from the external store: its kind (OAK_EQUAL reverses the
relop), and the two operand value numbers. -/
structure Assertion where
  isEqual : Bool
  op1vn : Nat
  op2vn : Nat
deriving DecidableEq

/-- Environment of external collaborators (spec section 6): the IR shape
accessors, the value-number store, the assertion store, the basic-block
tables and the def map.  The def map stands for the table built once per
pass by MapMethodDefs through the external pre-order tree walker. -/
structure Env where
  oper : Nat → Gop
  typ : Nat → Typ
  op1 : Nat → Nat
  op2 : Nat → Nat
  bcIndex : Nat → Nat
  bcArrLen : Nat → Nat
  phiArgs : Nat → List Nat
  iconValue : Nat → Int
  lclNum : Nat → Nat
  ssaNum : Nat → Nat
  vnOf : Nat → Nat
  predBB : Nat → Nat
  IsVNConstant : Nat → Bool
  TypeOfVN : Nat → Typ
  ConstantValue : Nat → Int
  IsVNArrLen : Nat → Bool
  GetArrForLenVn : Nat → Nat
  GetNewArrSize : Nat → Int
  optIsTreeKnownIntValue : Nat → Option Int
  lclSsaVN : Nat → Nat → Nat
  vnZeroInt : Nat
  reservedSsa : Nat
  defMap : Nat → Nat → Option Location
  boundShape : Nat → BoundShape
  bbAssertionIn : Nat → List Assertion
  bbAssertionOut : Nat → List Assertion
  bbFallsThrough : Nat → Bool
  bbNext : Nat → Nat
  bbJumpKind : Nat → JumpKind
  bbJumpDest : Nat → Nat
  bbJtrueAssertionOut : Option (Nat → List Assertion)
  blocks : List Nat
  stmtsOf : Nat → List Nat
  treesOf : Nat → List Nat
  fgSsaPassesCompleted : Nat

/-- GenTree::IsLocal holds for local variable nodes; GenTreePhiArg derives
from GenTreeLclVarCommon, so phi argument nodes are local too. -/
def isLocalOper : Gop → Bool
  | .LCL_VAR => true
  | .PHI_ARG => true
  | _ => false

/-- RangeCheck::GetArrLength: resolve the value number through
GetArrForLenVn and ask the new-array-size query. -/
def GetArrLength (env : Env) (vn : Nat) : Int :=
  env.GetNewArrSize (env.GetArrForLenVn vn)

/-- RangeCheck::GetDef: the reserved SSA number has no definition; otherwise
consult the def table. -/
def GetDef (env : Env) (lclNum ssaNum : Nat) : Option Location :=
  if ssaNum = env.reservedSsa then none else env.defMap lclNum ssaNum

/-- Association-list lookup for the range and overflow caches (the C++
SimplerHashTable keyed by tree id). -/
def lookupA {α : Type} (m : List (Nat × α)) (k : Nat) : Option α :=
  match m with
  | [] => none
  | (k2, v) :: rest => if k2 = k then some v else lookupA rest k

/-- Association-list overwrite for the caches; consing shadows any older
entry, matching SimplerHashTable::Set. -/
def setA {α : Type} (m : List (Nat × α)) (k : Nat) (v : α) : List (Nat × α) :=
  (k, v) :: m

/-- SimplerHashTable::Set on the search path: adding a key already present
leaves the table unchanged. -/
def pathInsert (l : List Nat) (a : Nat) : List Nat :=
  if a ∈ l then l else a :: l

/-- Mutable per-pass state: the two caches, the search path, the visit
budget and the current bounds check (m_pCurBndsChk). -/
structure RCState where
  rangeMap : List (Nat × Range)
  overflowMap : List (Nat × Bool)
  path : List Nat
  budget : Int
  curBndsChk : Nat
deriving DecidableEq

/-- RangeCheck::IsOverBudget. -/
def IsOverBudget (s : RCState) : Bool := decide (s.budget ≤ 0)

/-- MAX_SEARCH_DEPTH. -/
def MAX_SEARCH_DEPTH : Nat := 100

/-- MAX_VISIT_BUDGET. -/
def MAX_VISIT_BUDGET : Int := 8192

/-- Extraction step of MergeEdgeAssertions, lines 531-605 of
rangecheck.cpp: dispatch on the recognized shape of the predicate value
number, bail unless the compared value number equals the SSA value number
of the merged local, and build the raw limit (a non-32-bit or non-constant
arith operand leaves the limit Undef, which is discarded). -/
def extractShape (env : Env) (lclVN : Nat) (a : Assertion) : Option (Limit × Gop) :=
  match env.boundShape a.op1vn with
  | .unrecognized => none
  | .arrLenArith cmpOp cmpOper vnArray arrOper arrOp =>
      if lclVN ≠ cmpOp then none
      else
        let limit : Limit :=
          match arrOper with
          | .SUB =>
              if env.IsVNConstant arrOp ∧ env.TypeOfVN arrOp = .INT then
                ⟨.keBinOpArray, vnArray, -(env.ConstantValue arrOp)⟩
              else undefLimit
          | .ADD =>
              if env.IsVNConstant arrOp ∧ env.TypeOfVN arrOp = .INT then
                ⟨.keBinOpArray, vnArray, env.ConstantValue arrOp⟩
              else undefLimit
          | _ => undefLimit
        some (limit, cmpOper)
  | .arrLen cmpOp cmpOper vnArray =>
      if lclVN ≠ cmpOp then none
      else some (⟨.keArray, vnArray, 0⟩, cmpOper)
  | .constBound cmpOpVN cmpOper constVal =>
      if lclVN ≠ cmpOpVN then none
      else some (⟨.keConstant, noVN, constVal⟩, cmpOper)

/-- Filtering and reversal step of MergeEdgeAssertions, lines 607-651: an
Undef limit is discarded, the assertion must compare against the zero value
number of TYP_INT, and an OAK_EQUAL assertion reverses the relop. -/
def extractRaw (env : Env) (lclVN : Nat) (a : Assertion) : Option (Limit × Gop) :=
  match extractShape env lclVN a with
  | none => none
  | some (limit, cmpOper) =>
      if limit.IsUndef then none
      else if a.op2vn ≠ env.vnZeroInt then none
      else some (limit, if a.isEqual then ReverseRelop cmpOper else cmpOper)

/-- Strictness adjustment of MergeEdgeAssertions, lines 653-662: subtract
one from the limit for a strict less-than, add one for a strict
greater-than; a 32-bit overflow of the adjustment discards the assertion. -/
def adjustLimit (l : Limit) (cmp : Gop) : Option Limit :=
  match cmp with
  | .LT => l.AddConstant (-1)
  | .GT => l.AddConstant 1
  | _ => some l

/-- Application step of MergeEdgeAssertions per relational operator, lines
707-729: less-than operators replace the upper limit, greater-than
operators replace the lower limit, every other operator leaves the range
unchanged. -/
def applyCmp (cmp : Gop) (limit : Limit) (r : Range) : Range :=
  match cmp with
  | .LT => { r with uLimit := limit }
  | .LE => { r with uLimit := limit }
  | .GT => { r with lLimit := limit }
  | .GE => { r with lLimit := limit }
  | _ => r

/-- Tightening gates of MergeEdgeAssertions, lines 664-705: a Constant
current upper limit discards any incoming limit whose value number differs
from the array-ref value number of the bounds check; an Array or
BinOpArray current upper limit on that array-ref discards an incoming
limit on a different value number, and one whose constant offset does not
strictly decrease; every other current upper limit lets the incoming limit
through.  A limit that passes the gates is applied per the relational
operator. -/
def applyTighten (arrRefVN : Nat) (limit : Limit) (cmp : Gop) (r : Range) : Range :=
  if r.uLimit.IsConstant ∧ limit.vn ≠ arrRefVN then r
  else if (r.uLimit.IsArray ∨ r.uLimit.IsBinOpArray) ∧ r.uLimit.vn = arrRefVN then
    if limit.vn ≠ arrRefVN then r
    else
      let curCns := if r.uLimit.IsBinOpArray then r.uLimit.cns else 0
      let limCns := if limit.IsBinOpArray then limit.cns else 0
      if curCns ≤ limCns then r
      else applyCmp cmp limit r
  else applyCmp cmp limit r

/-- One iteration of the assertion loop of MergeEdgeAssertions: extract,
adjust for strictness, then tighten. -/
def mergeStep (env : Env) (lclVN arrRefVN : Nat) (r : Range) (a : Assertion) : Range :=
  match extractRaw env lclVN a with
  | none => r
  | some (l, cmp) =>
      match adjustLimit l cmp with
      | none => r
      | some l2 => applyTighten arrRefVN l2 cmp r

/-- RangeCheck::MergeEdgeAssertions: bail on an empty set or a reserved SSA
number, resolve the array-ref value number of the current bounds check,
then fold the recognized assertions over the range. -/
def MergeEdgeAssertions (env : Env) (curBndsChk tree : Nat)
    (assertions : List Assertion) (r : Range) : Range :=
  if assertions.isEmpty then r
  else if env.ssaNum tree = env.reservedSsa then r
  else
    let arrLenVN := env.vnOf (env.bcArrLen curBndsChk)
    let arrRefVN := if env.IsVNArrLen arrLenVN then env.GetArrForLenVn arrLenVN else noVN
    let lclVN := env.lclSsaVN (env.lclNum tree) (env.ssaNum tree)
    assertions.foldl (mergeStep env lclVN arrRefVN) r

/-- RangeCheck::MergeAssertion: a phi argument merges the assertion-out set
of its predecessor edge (falling-through, or the jump-true set of a
conditional or unconditional jump); any other local merges the block
assertion-in set; everything else leaves the range alone. -/
def MergeAssertion (env : Env) (curBndsChk block op : Nat) (r : Range) : Range :=
  if env.oper op = .PHI_ARG then
    let pred := env.predBB op
    if env.bbFallsThrough pred ∧ env.bbNext pred = block then
      MergeEdgeAssertions env curBndsChk op (env.bbAssertionOut pred) r
    else if (env.bbJumpKind pred = .COND ∨ env.bbJumpKind pred = .ALWAYS) ∧
            env.bbJumpDest pred = block then
      match env.bbJtrueAssertionOut with
      | some jout => MergeEdgeAssertions env curBndsChk op (jout pred) r
      | none => r
    else r
  else if isLocalOper (env.oper op) then
    MergeEdgeAssertions env curBndsChk op (env.bbAssertionIn block) r
  else r

/-- RangeCheck::GetLimitMax: the maximum possible value of a limit, with an
array length treated as the allocated size when the new-array query knows
it (positive) and ARRLEN_MAX otherwise; SsaVar and BinOp limits have a
maximum only when their value number is a 32-bit constant; offset additions
that overflow fail. -/
def GetLimitMax (env : Env) (limit : Limit) : Option Int :=
  match limit.type with
  | .keConstant => some limit.cns
  | .keBinOpArray =>
      let t0 := GetArrLength env limit.vn
      let t := if t0 ≤ 0 then intMax else t0
      if IntAddOverflows t limit.cns then none else some (t + limit.cns)
  | .keArray =>
      let t0 := GetArrLength env limit.vn
      some (if t0 ≤ 0 then intMax else t0)
  | .keSsaVar =>
      if env.IsVNConstant limit.vn ∧ env.TypeOfVN limit.vn = .INT then
        some (env.ConstantValue limit.vn)
      else none
  | .keBinOp =>
      if env.IsVNConstant limit.vn ∧ env.TypeOfVN limit.vn = .INT then
        if IntAddOverflows (env.ConstantValue limit.vn) limit.cns then none
        else some (env.ConstantValue limit.vn + limit.cns)
      else none
  | _ => none

/-- RangeCheck::AddOverflows: the addition of the two maximum values
overflows, conservatively true when either maximum is not computable. -/
def AddOverflows (env : Env) (l1 l2 : Limit) : Bool :=
  match GetLimitMax env l1, GetLimitMax env l2 with
  | some m1, some m2 => IntAddOverflows m1 m2
  | _, _ => true

/-- RangeCheck::BetweenBounds: decide whether the computed range lies in
[0, upperTree).  The upper value number resolves either to a constant
array size or, through an array-length value number, to an array ref and
its known allocated size (0 when unknown); any other upper value number
bails.  The decision table is lines 121-199 of rangecheck.cpp. -/
def BetweenBounds (env : Env) (r : Range) (upperTree : Nat) : Bool :=
  let uLimitVN := env.vnOf upperTree
  if env.IsVNConstant uLimitVN then
    betweenBoundsBody r noVN
      (match env.optIsTreeKnownIntValue upperTree with
       | some c => c
       | none => 0)
  else if env.IsVNArrLen uLimitVN then
    betweenBoundsBody r (env.GetArrForLenVn uLimitVN)
      (env.GetNewArrSize (env.GetArrForLenVn uLimitVN))
  else false
where
  betweenBoundsBody (r : Range) (arrRefVN : Nat) (arrSize : Int) : Bool :=
    if r.uLimit.IsBinOpArray then
      if r.uLimit.vn ≠ arrRefVN then false
      else
        let ucns := r.uLimit.GetConstant
        if 0 ≤ ucns then false
        else if r.lLimit.IsArray then false
        else if r.lLimit.IsConstant ∧ 0 ≤ r.lLimit.GetConstant then true
        else if arrSize ≤ 0 then false
        else if r.lLimit.IsBinOpArray then
          let lcns := r.lLimit.GetConstant
          if 0 ≤ lcns ∨ arrSize < -lcns then false
          else decide (r.lLimit.vn = arrRefVN ∧ lcns ≤ ucns)
        else false
    else if r.uLimit.IsConstant then
      if arrSize ≤ 0 then false
      else
        let ucns := r.uLimit.GetConstant
        if arrSize ≤ ucns then false
        else if r.lLimit.IsConstant then
          decide (0 ≤ r.lLimit.GetConstant ∧ r.lLimit.GetConstant ≤ ucns)
        else if r.lLimit.IsBinOpArray then
          let lcns := r.lLimit.GetConstant
          if 0 ≤ lcns ∨ arrSize < -lcns then false
          else decide (r.lLimit.vn = arrRefVN ∧ arrSize + lcns ≤ ucns)
        else false
    else false

mutual

/-- RangeCheck::GetRange: return the cached range when present, else
compute and cache it. -/
def GetRange (env : Env) (fuel : Nat) (block stmt expr : Nat) (monotonic : Bool)
    (s : RCState) : Range × RCState :=
  match fuel with
  | 0 => (unknownRange, s)
  | fuel + 1 =>
      match lookupA s.rangeMap expr with
      | some r => (r, s)
      | none => ComputeRange env fuel block stmt expr monotonic s

termination_by structural fuel
/-- RangeCheck::ComputeRange, entry and exit bookkeeping: put the
expression on the search path, charge the visit budget when it is newly
added, run the dispatch body, then cache the result and remove the
expression from the path on every exit. -/
def ComputeRange (env : Env) (fuel : Nat) (block stmt expr : Nat) (monotonic : Bool)
    (s : RCState) : Range × RCState :=
  match fuel with
  | 0 => (unknownRange, s)
  | fuel + 1 =>
      let s1 : RCState :=
        { s with path := pathInsert s.path expr,
                 budget := if expr ∈ s.path then s.budget else s.budget - 1 }
      let res := computeRangeBody env fuel block stmt expr monotonic s1
      (res.1, { res.2 with rangeMap := setA res.2.rangeMap expr res.1,
                           path := res.2.path.erase expr })

termination_by structural fuel
/-- Dispatch of RangeCheck::ComputeRange, lines 1143-1233: over budget or
too deep gives Unknown; a 64-bit expression gives Unknown; a constant
value number of 32-bit type gives the constant range; a local recurses into
its definition and then merges assertions; an addition recurses into both
operands; a phi folds the merged argument ranges; anything else is
Unknown. -/
def computeRangeBody (env : Env) (fuel : Nat) (block stmt expr : Nat) (monotonic : Bool)
    (s : RCState) : Range × RCState :=
  match fuel with
  | 0 => (unknownRange, s)
  | fuel + 1 =>
      if s.budget ≤ 0 then (unknownRange, s)
      else if MAX_SEARCH_DEPTH < s.path.length then (unknownRange, s)
      else if env.typ expr = .LONG ∨ env.typ expr = .ULONG then (unknownRange, s)
      else if env.IsVNConstant (env.vnOf expr) then
        ((if env.TypeOfVN (env.vnOf expr) = .INT
          then constRange (env.ConstantValue (env.vnOf expr))
          else unknownRange), s)
      else if isLocalOper (env.oper expr) then
        let res := ComputeRangeForLocalDef env fuel block stmt expr monotonic s
        (MergeAssertion env res.2.curBndsChk block expr res.1, res.2)
      else if env.oper expr = .ADD then
        ComputeRangeForBinOp env fuel block stmt (env.op1 expr) (env.op2 expr) monotonic s
      else if env.oper expr = .PHI then
        let res := computePhiArgRanges env fuel block stmt (env.phiArgs expr) monotonic s
        (res.1.foldl (fun acc r => RangeMerge acc r monotonic) undefRange, res.2)
      else (unknownRange, s)

termination_by structural fuel
/-- RangeCheck::ComputeRangeForLocalDef: find the definition of the SSA
name; a plain assignment recurses into the right-hand side at the def
location and then merges the block assertion-in set against the left-hand
side; a compound add-assignment computes the binary-operation range of its
two operands; anything else is Unknown. -/
def ComputeRangeForLocalDef (env : Env) (fuel : Nat) (block stmt expr : Nat)
    (monotonic : Bool) (s : RCState) : Range × RCState :=
  match fuel with
  | 0 => (unknownRange, s)
  | fuel + 1 =>
      match GetDef env (env.lclNum expr) (env.ssaNum expr) with
      | none => (unknownRange, s)
      | some loc =>
          match env.oper loc.parent with
          | .ASG =>
              let res := GetRange env fuel loc.block loc.stmt (env.op2 loc.parent) monotonic s
              (MergeEdgeAssertions env res.2.curBndsChk (env.op1 loc.parent)
                 (env.bbAssertionIn block) res.1, res.2)
          | .ASG_ADD =>
              ComputeRangeForBinOp env fuel loc.block loc.stmt
                (env.op1 loc.parent) (env.op2 loc.parent) monotonic s
          | _ => (unknownRange, s)

termination_by structural fuel
/-- RangeCheck::ComputeRangeForBinOp: for each operand, use the cached
range when present; otherwise an operand already on the search path becomes
Dependent and an off-path operand is computed recursively, and in either
of those two cases the assertions are merged; finally add the two operand
ranges. -/
def ComputeRangeForBinOp (env : Env) (fuel : Nat) (block stmt op1 op2 : Nat)
    (monotonic : Bool) (s : RCState) : Range × RCState :=
  match fuel with
  | 0 => (unknownRange, s)
  | fuel + 1 =>
      let res1 := binOpOperandRange env fuel block stmt op1 monotonic s
      let res2 := binOpOperandRange env fuel block stmt op2 monotonic res1.2
      (RangeAdd res1.1 res2.1, res2.2)

termination_by structural fuel
/-- Per-operand step of RangeCheck::ComputeRangeForBinOp (lines 780-824):
use the cached range when present; otherwise an on-path operand becomes
Dependent and an off-path operand is computed recursively, and the
assertions of the block are merged into the freshly obtained range. -/
def binOpOperandRange (env : Env) (fuel : Nat) (block stmt op : Nat)
    (monotonic : Bool) (s : RCState) : Range × RCState :=
  match fuel with
  | 0 => (unknownRange, s)
  | fuel + 1 =>
      match lookupA s.rangeMap op with
      | some r => (r, s)
      | none =>
          let r0 :=
            if op ∈ s.path then (dependentRange, s)
            else GetRange env fuel block stmt op monotonic s
          (MergeAssertion env r0.2.curBndsChk block op r0.1, r0.2)
termination_by structural fuel

/-- Phi-argument loop of RangeCheck::ComputeRange: an argument already on
the search path becomes Dependent, an off-path argument is computed
recursively, and both are tightened by the assertions of their predecessor
edge; the list of per-argument ranges is returned for the fold. -/
def computePhiArgRanges (env : Env) (fuel : Nat) (block stmt : Nat) (args : List Nat)
    (monotonic : Bool) (s : RCState) : List Range × RCState :=
  match fuel with
  | 0 => ([], s)
  | fuel + 1 =>
      match args with
      | [] => ([], s)
      | a :: rest =>
          let res1 : Range × RCState :=
            if a ∈ s.path then
              (MergeAssertion env s.curBndsChk block a dependentRange, s)
            else
              let r0 := GetRange env fuel block stmt a monotonic s
              (MergeAssertion env r0.2.curBndsChk block a r0.1, r0.2)
          let res2 := computePhiArgRanges env fuel block stmt rest monotonic res1.2
          (res1.1 :: res2.1, res2.2)

termination_by structural fuel
end

/-- Cache-consultation tail of RangeCheck::DoesBinOpOverflow (lines
981-1014): both operands must have cached ranges; a Dependent upper limit
is re-tightened by the assertions in place, through the cache pointer;
finally the verdict is AddOverflows on the two current upper limits. -/
def binOpOverflowTail (env : Env) (block op1 op2 : Nat) (s2 : RCState) : Bool × RCState :=
  match lookupA s2.rangeMap op1, lookupA s2.rangeMap op2 with
  | some r1, some _ =>
      let s3 : RCState :=
        if r1.uLimit.IsDependent then
          let merged1 := MergeAssertion env s2.curBndsChk block op1 r1
          { s2 with rangeMap := setA s2.rangeMap op1 merged1 }
        else s2
      match lookupA s3.rangeMap op2 with
      | some r2 =>
          let s4 : RCState :=
            if r2.uLimit.IsDependent then
              let merged2 := MergeAssertion env s3.curBndsChk block op2 r2
              { s3 with rangeMap := setA s3.rangeMap op2 merged2 }
            else s3
          match lookupA s4.rangeMap op1, lookupA s4.rangeMap op2 with
          | some f1, some f2 => (AddOverflows env f1.uLimit f2.uLimit, s4)
          | _, _ => (true, s4)
      | none => (true, s3)
  | _, _ => (true, s2)

mutual

/-- RangeCheck::DoesOverflow: return the cached verdict when present, else
compute it. -/
def DoesOverflow (env : Env) (fuel : Nat) (block stmt expr : Nat)
    (s : RCState) : Bool × RCState :=
  match fuel with
  | 0 => (true, s)
  | fuel + 1 =>
      match lookupA s.overflowMap expr with
      | some b => (b, s)
      | none => ComputeDoesOverflow env fuel block stmt expr s

termination_by structural fuel
/-- RangeCheck::ComputeDoesOverflow, entry and exit bookkeeping: put the
expression on the search path, run the dispatch body, cache the verdict and
remove the expression from the path on every exit. -/
def ComputeDoesOverflow (env : Env) (fuel : Nat) (block stmt expr : Nat)
    (s : RCState) : Bool × RCState :=
  match fuel with
  | 0 => (true, s)
  | fuel + 1 =>
      let s1 : RCState := { s with path := pathInsert s.path expr }
      let res := computeDoesOverflowBody env fuel block stmt expr s1
      (res.1, { res.2 with overflowMap := setA res.2.overflowMap expr res.1,
                           path := res.2.path.erase expr })

termination_by structural fuel
/-- Dispatch of RangeCheck::ComputeDoesOverflow, lines 1084-1107: too deep
is conservatively true; a constant value number does not overflow; a local
recurses into its definition; an addition uses the binary rule; a phi asks
every off-path argument; anything else is conservatively true. -/
def computeDoesOverflowBody (env : Env) (fuel : Nat) (block stmt expr : Nat)
    (s : RCState) : Bool × RCState :=
  match fuel with
  | 0 => (true, s)
  | fuel + 1 =>
      if MAX_SEARCH_DEPTH < s.path.length then (true, s)
      else if env.IsVNConstant (env.vnOf expr) then (false, s)
      else if isLocalOper (env.oper expr) then
        DoesVarDefOverflow env fuel block stmt expr s
      else if env.oper expr = .ADD then
        DoesBinOpOverflow env fuel block stmt (env.op1 expr) (env.op2 expr) s
      else if env.oper expr = .PHI then
        DoesPhiOverflow env fuel block stmt (env.phiArgs expr) s
      else (true, s)

termination_by structural fuel
/-- RangeCheck::DoesVarDefOverflow: no reachable definition is
conservatively true; a plain assignment recurses into its right-hand side
at the def location; a compound add-assignment uses the binary rule. -/
def DoesVarDefOverflow (env : Env) (fuel : Nat) (block stmt expr : Nat)
    (s : RCState) : Bool × RCState :=
  match fuel with
  | 0 => (true, s)
  | fuel + 1 =>
      match GetDef env (env.lclNum expr) (env.ssaNum expr) with
      | none => (true, s)
      | some loc =>
          match env.oper loc.parent with
          | .ASG => DoesOverflow env fuel loc.block loc.stmt (env.op2 loc.parent) s
          | .ASG_ADD =>
              DoesBinOpOverflow env fuel loc.block loc.stmt
                (env.op1 loc.parent) (env.op2 loc.parent) s
          | _ => (true, s)

termination_by structural fuel
/-- RangeCheck::DoesBinOpOverflow: each operand off the search path must
not itself overflow; both operands must have cached ranges; a Dependent
upper limit is re-tightened by assertions in place (through the cache
pointer); finally the maxima of the two upper limits must add without
32-bit overflow. -/
def DoesBinOpOverflow (env : Env) (fuel : Nat) (block stmt op1 op2 : Nat)
    (s : RCState) : Bool × RCState :=
  match fuel with
  | 0 => (true, s)
  | fuel + 1 =>
      let d1 : Bool × RCState :=
        if op1 ∈ s.path then (false, s) else DoesOverflow env fuel block stmt op1 s
      if d1.1 then (true, d1.2)
      else
        let d2 : Bool × RCState :=
          if op2 ∈ d1.2.path then (false, d1.2)
          else DoesOverflow env fuel block stmt op2 d1.2
        if d2.1 then (true, d2.2)
        else binOpOverflowTail env block op1 op2 d2.2

termination_by structural fuel
/-- RangeCheck::DoesPhiOverflow: an argument already on the search path is
skipped; otherwise the phi overflows as soon as one argument does. -/
def DoesPhiOverflow (env : Env) (fuel : Nat) (block stmt : Nat) (args : List Nat)
    (s : RCState) : Bool × RCState :=
  match fuel with
  | 0 => (true, s)
  | fuel + 1 =>
      match args with
      | [] => (false, s)
      | a :: rest =>
          if a ∈ s.path then DoesPhiOverflow env fuel block stmt rest s
          else
            let d := DoesOverflow env fuel block stmt a s
            if d.1 then (true, d.2)
            else DoesPhiOverflow env fuel block stmt rest d.2

termination_by structural fuel
end

mutual

/-- RangeCheck::IsMonotonicallyIncreasing: an expression already on the
search path is assumed safe; otherwise it is put on the path, the dispatch
body runs, and the scoped finalizer removes the expression on every exit. -/
def IsMonotonicallyIncreasing (env : Env) (fuel : Nat) (expr : Nat)
    (s : RCState) : Bool × RCState :=
  match fuel with
  | 0 => (false, s)
  | fuel + 1 =>
      if expr ∈ s.path then (true, s)
      else
        let s1 : RCState := { s with path := pathInsert s.path expr }
        let res := monotonicBody env fuel expr s1
        (res.1, { res.2 with path := res.2.path.erase expr })

termination_by structural fuel
/-- Dispatch of RangeCheck::IsMonotonicallyIncreasing, lines 376-432: too
deep is false; a constant value number is monotonic; a local dispatches on
its defining assignment (plain assignment recurses into the right-hand
side, compound add-assignment uses the binary rule); an addition uses the
binary rule; a phi requires every off-path argument monotonic; anything
else is false. -/
def monotonicBody (env : Env) (fuel : Nat) (expr : Nat)
    (s : RCState) : Bool × RCState :=
  match fuel with
  | 0 => (false, s)
  | fuel + 1 =>
      if MAX_SEARCH_DEPTH < s.path.length then (false, s)
      else if env.IsVNConstant (env.vnOf expr) then (true, s)
      else if isLocalOper (env.oper expr) then
        match GetDef env (env.lclNum expr) (env.ssaNum expr) with
        | none => (false, s)
        | some loc =>
            match env.oper loc.parent with
            | .ASG => IsMonotonicallyIncreasing env fuel (env.op2 loc.parent) s
            | .ASG_ADD =>
                IsBinOpMonotonicallyIncreasing env fuel
                  (env.op1 loc.parent) (env.op2 loc.parent) .ADD s
            | _ => (false, s)
      else if env.oper expr = .ADD then
        IsBinOpMonotonicallyIncreasing env fuel (env.op1 expr) (env.op2 expr) .ADD s
      else if env.oper expr = .PHI then
        monotonicPhiArgs env fuel (env.phiArgs expr) s
      else (false, s)

termination_by structural fuel
/-- RangeCheck::IsBinOpMonotonicallyIncreasing: swap so that a GT_LCL_VAR
second operand becomes the first, then run the normalized rule. -/
def IsBinOpMonotonicallyIncreasing (env : Env) (fuel : Nat) (op1 op2 : Nat)
    (oper : Gop) (s : RCState) : Bool × RCState :=
  match fuel with
  | 0 => (false, s)
  | fuel + 1 =>
      if env.oper op2 = .LCL_VAR then binOpMonotonicNorm env fuel op2 op1 oper s
      else binOpMonotonicNorm env fuel op1 op2 oper s

termination_by structural fuel
/-- Normalized rule of RangeCheck::IsBinOpMonotonicallyIncreasing, lines
337-355: the first operand must be GT_LCL_VAR; a GT_LCL_VAR second operand
requires both operands monotonic; a GT_CNS_INT second operand requires the
operation to be GT_ADD, the constant non-negative and the first operand
monotonic; anything else is false. -/
def binOpMonotonicNorm (env : Env) (fuel : Nat) (op1 op2 : Nat) (oper : Gop)
    (s : RCState) : Bool × RCState :=
  match fuel with
  | 0 => (false, s)
  | fuel + 1 =>
      if env.oper op1 ≠ .LCL_VAR then (false, s)
      else
        match env.oper op2 with
        | .LCL_VAR =>
            let m1 := IsMonotonicallyIncreasing env fuel op1 s
            if m1.1 then IsMonotonicallyIncreasing env fuel op2 m1.2
            else (false, m1.2)
        | .CNS_INT =>
            if oper = .ADD ∧ 0 ≤ env.iconValue op2 then
              IsMonotonicallyIncreasing env fuel op1 s
            else (false, s)
        | _ => (false, s)

termination_by structural fuel
/-- Phi loop of RangeCheck::IsMonotonicallyIncreasing: skip arguments on
the search path and require the rest monotonic. -/
def monotonicPhiArgs (env : Env) (fuel : Nat) (args : List Nat)
    (s : RCState) : Bool × RCState :=
  match fuel with
  | 0 => (false, s)
  | fuel + 1 =>
      match args with
      | [] => (true, s)
      | a :: rest =>
          if a ∈ s.path then monotonicPhiArgs env fuel rest s
          else
            let m := IsMonotonicallyIncreasing env fuel a s
            if m.1 then monotonicPhiArgs env fuel rest m.2
            else (false, m.2)

termination_by structural fuel
end

/-- RangeCheck::Widen: when the lower limit is Dependent or Unknown, ask
the monotonicity prover; on success clear the range cache and recompute the
range with the monotonic merge rule. -/
def Widen (env : Env) (fuel : Nat) (block stmt tree : Nat) (s : RCState)
    (r : Range) : Range × RCState :=
  if r.lLimit.IsDependent || r.lLimit.IsUnknown then
    let m := IsMonotonicallyIncreasing env fuel tree s
    if m.1 then GetRange env fuel block stmt tree true { m.2 with rangeMap := [] }
    else (r, m.2)
  else (r, s)

/-- RangeCheck::OptimizeRangeCheck: only a bounds check that is the first
operand of a comma parent is analyzed.  The constant fast path removes the
check before any range computation when the index value number is constant,
the array size is known positive, and the known index value lies in
[0, arrSize).  Otherwise both caches are cleared, the range is computed
over a fresh search path, and the check is removed only when the range is
known, no overflow is possible, and BetweenBounds accepts the (possibly
widened) range.  The returned list carries the checks removed by the call
(the invocations of the external removal primitive). -/
def OptimizeRangeCheck (env : Env) (fuel : Nat) (block stmt treeParent : Nat)
    (s : RCState) : RCState × List Nat :=
  if env.oper treeParent ≠ .COMMA then (s, [])
  else if env.oper (env.op1 treeParent) ≠ .ARR_BOUNDS_CHECK then (s, [])
  else
    let tree := env.op1 treeParent
    let s0 : RCState := { s with curBndsChk := tree }
    let treeIndex := env.bcIndex tree
    let arrLenTree := env.bcArrLen tree
    let idxVn := env.vnOf treeIndex
    let arrLenVn := env.vnOf arrLenTree
    let arrSize : Int :=
      if env.IsVNConstant arrLenVn then
        match env.optIsTreeKnownIntValue arrLenTree with
        | some c => c
        | none => 0
      else GetArrLength env arrLenVn
    let slowPath : RCState × List Nat :=
      let s1 : RCState := { s0 with rangeMap := [], overflowMap := [], path := [] }
      let g := GetRange env fuel block stmt treeIndex false s1
      if g.1.uLimit.IsUnknown || g.1.lLimit.IsUnknown then (g.2, [])
      else
        let d := DoesOverflow env fuel block stmt treeIndex g.2
        if d.1 then (d.2, [])
        else
          let s3 : RCState := { d.2 with path := [] }
          let w := Widen env fuel block stmt treeIndex s3 g.1
          if w.1.uLimit.IsUnknown || w.1.lLimit.IsUnknown then (w.2, [])
          else if BetweenBounds env w.1 arrLenTree then (w.2, [treeParent])
          else (w.2, [])
    if env.IsVNConstant idxVn ∧ 0 < arrSize then
      match env.optIsTreeKnownIntValue treeIndex with
      | none => (s0, [])
      | some idxVal =>
          if 0 < arrSize ∧ idxVal < arrSize ∧ 0 ≤ idxVal then (s0, [treeParent])
          else slowPath
    else slowPath

/-- Innermost loop of RangeCheck::OptimizeRangeChecks: walk the linear tree
list of one statement, returning as soon as the visit budget is exhausted,
and optimize each tree position. -/
def OptimizeRangeChecksTrees (env : Env) (fuel : Nat) (block stmt : Nat) :
    List Nat → RCState → RCState × List Nat
  | [], s => (s, [])
  | t :: ts, s =>
      if s.budget ≤ 0 then (s, [])
      else
        let o := OptimizeRangeCheck env fuel block stmt t s
        let rest := OptimizeRangeChecksTrees env fuel block stmt ts o.1
        (rest.1, o.2 ++ rest.2)

/-- Statement loop of RangeCheck::OptimizeRangeChecks. -/
def OptimizeRangeChecksStmts (env : Env) (fuel : Nat) (block : Nat) :
    List Nat → RCState → RCState × List Nat
  | [], s => (s, [])
  | st :: sts, s =>
      let o := OptimizeRangeChecksTrees env fuel block st (env.treesOf st) s
      let rest := OptimizeRangeChecksStmts env fuel block sts o.1
      (rest.1, o.2 ++ rest.2)

/-- Block loop of RangeCheck::OptimizeRangeChecks. -/
def OptimizeRangeChecksBlocks (env : Env) (fuel : Nat) :
    List Nat → RCState → RCState × List Nat
  | [], s => (s, [])
  | b :: bs, s =>
      let o := OptimizeRangeChecksStmts env fuel b (env.stmtsOf b) s
      let rest := OptimizeRangeChecksBlocks env fuel bs o.1
      (rest.1, o.2 ++ rest.2)

/-- RangeCheck::OptimizeRangeChecks, the entry point: nothing happens
before SSA, otherwise every tree position of every statement of every
block is visited in program order. -/
def OptimizeRangeChecks (env : Env) (fuel : Nat) (s : RCState) : RCState × List Nat :=
  if env.fgSsaPassesCompleted = 0 then (s, [])
  else OptimizeRangeChecksBlocks env fuel env.blocks s

/-- Environment with inert external collaborators, used as the base of the
concrete test environments. -/
def defaultEnv : Env where
  oper := fun _ => .OTHER
  typ := fun _ => .INT
  op1 := fun _ => 0
  op2 := fun _ => 0
  bcIndex := fun _ => 0
  bcArrLen := fun _ => 0
  phiArgs := fun _ => []
  iconValue := fun _ => 0
  lclNum := fun _ => 0
  ssaNum := fun _ => 0
  vnOf := fun _ => 0
  predBB := fun _ => 0
  IsVNConstant := fun _ => false
  TypeOfVN := fun _ => .INT
  ConstantValue := fun _ => 0
  IsVNArrLen := fun _ => false
  GetArrForLenVn := fun _ => 0
  GetNewArrSize := fun _ => 0
  optIsTreeKnownIntValue := fun _ => none
  lclSsaVN := fun _ _ => 0
  vnZeroInt := 0
  reservedSsa := 99
  defMap := fun _ _ => none
  boundShape := fun _ => .unrecognized
  bbAssertionIn := fun _ => []
  bbAssertionOut := fun _ => []
  bbFallsThrough := fun _ => false
  bbNext := fun _ => 0
  bbJumpKind := fun _ => .OTHER
  bbJumpDest := fun _ => 0
  bbJtrueAssertionOut := none
  blocks := []
  stmtsOf := fun _ => []
  treesOf := fun _ => []
  fgSsaPassesCompleted := 1

/-- Fresh per-pass state with the given visit budget. -/
def initState (budget : Int) : RCState :=
  { rangeMap := [], overflowMap := [], path := [], budget := budget, curBndsChk := 0 }

/-- Program of the C2 counterexample.  Block 10 holds a bounds check
(comma node 1 over check node 2) whose index, tree 3, is the SSA local
(lcl 1, ssa 1).  That name is defined by node 6, the assignment of phi
node 7 with arguments 8 (from predecessor block 20, value number 105, the
constant 5) and 9 (from predecessor block 30, value number 103, the
constant 3).  The array length, tree 4, carries the array-length value
number 100 of array 200 whose allocated size is unknown.  The edge out of
block 20 asserts both (5 >= 0) != 0 and (5 < a.len) != 0; the jump edge
out of block 30 asserts (3 >= 0) != 0 and (3 < a.len) != 0. -/
def envC2 : Env :=
  { defaultEnv with
    oper := fun n =>
      if n = 1 then .COMMA
      else if n = 2 then .ARR_BOUNDS_CHECK
      else if n = 3 then .LCL_VAR
      else if n = 5 then .LCL_VAR
      else if n = 6 then .ASG
      else if n = 7 then .PHI
      else if n = 8 then .PHI_ARG
      else if n = 9 then .PHI_ARG
      else .OTHER
    op1 := fun n => if n = 1 then 2 else if n = 6 then 5 else 0
    op2 := fun n => if n = 6 then 7 else 0
    bcIndex := fun n => if n = 2 then 3 else 0
    bcArrLen := fun n => if n = 2 then 4 else 0
    phiArgs := fun n => if n = 7 then [8, 9] else []
    lclNum := fun _ => 1
    ssaNum := fun n =>
      if n = 3 then 1 else if n = 5 then 1 else if n = 8 then 2
      else if n = 9 then 3 else 0
    vnOf := fun n =>
      if n = 3 then 101 else if n = 4 then 100 else if n = 7 then 102
      else if n = 8 then 105 else if n = 9 then 103 else 0
    predBB := fun n => if n = 8 then 20 else if n = 9 then 30 else 0
    IsVNConstant := fun v => v = 103 ∨ v = 105
    ConstantValue := fun v => if v = 105 then 5 else if v = 103 then 3 else 0
    IsVNArrLen := fun v => v = 100
    GetArrForLenVn := fun v => if v = 100 then 200 else 0
    lclSsaVN := fun l s =>
      if l = 1 ∧ s = 1 then 101 else if l = 1 ∧ s = 2 then 105
      else if l = 1 ∧ s = 3 then 103 else 0
    defMap := fun l s => if l = 1 ∧ s = 1 then some ⟨10, 0, 5, 6⟩ else none
    boundShape := fun v =>
      if v = 301 then .constBound 105 .GE 0
      else if v = 302 then .arrLen 105 .LT 200
      else if v = 303 then .constBound 103 .GE 0
      else if v = 304 then .arrLen 103 .LT 200
      else .unrecognized
    bbAssertionOut := fun b => if b = 20 then [⟨false, 301, 0⟩, ⟨false, 302, 0⟩] else []
    bbFallsThrough := fun b => b = 20
    bbNext := fun b => if b = 20 then 10 else 0
    bbJumpKind := fun b => if b = 30 then .ALWAYS else .OTHER
    bbJumpDest := fun b => if b = 30 then 10 else 0
    bbJtrueAssertionOut := some (fun b => if b = 30 then [⟨false, 303, 0⟩, ⟨false, 304, 0⟩] else [])
    blocks := [10]
    stmtsOf := fun b => if b = 10 then [0] else []
    treesOf := fun st => if st = 0 then [1] else [] }

/-- Program of the C3 counterexample, the canonical counted loop
for (i = 0; i < n; i++) of spec section 8.  Tree 3 is the loop index use
(lcl 1, ssa 1), defined by node 6 as phi node 7 with arguments 8 (the
initial value, ssa 2, constant value number 110) and 9 (the incremented
value, ssa 3, from the back edge out of block 30).  The increment, ssa 3,
is defined by node 11 as node 12, the addition of node 13 (a second use of
ssa 1) and node 14 (the constant one, value number 112).  No edge carries
assertions. -/
def envLoop : Env :=
  { defaultEnv with
    oper := fun n =>
      if n = 3 then .LCL_VAR
      else if n = 5 then .LCL_VAR
      else if n = 6 then .ASG
      else if n = 7 then .PHI
      else if n = 8 then .PHI_ARG
      else if n = 9 then .PHI_ARG
      else if n = 11 then .ASG
      else if n = 12 then .ADD
      else if n = 13 then .LCL_VAR
      else if n = 14 then .CNS_INT
      else if n = 15 then .LCL_VAR
      else .OTHER
    op1 := fun n => if n = 6 then 5 else if n = 11 then 15 else if n = 12 then 13 else 0
    op2 := fun n => if n = 6 then 7 else if n = 11 then 12 else if n = 12 then 14 else 0
    phiArgs := fun n => if n = 7 then [8, 9] else []
    lclNum := fun _ => 1
    ssaNum := fun n =>
      if n = 3 then 1 else if n = 5 then 1 else if n = 8 then 2
      else if n = 9 then 3 else if n = 13 then 1 else if n = 15 then 3 else 0
    vnOf := fun n =>
      if n = 3 then 101 else if n = 7 then 102 else if n = 8 then 110
      else if n = 9 then 111 else if n = 12 then 113 else if n = 13 then 101
      else if n = 14 then 112 else 0
    predBB := fun n => if n = 8 then 20 else if n = 9 then 30 else 0
    IsVNConstant := fun v => v = 110 ∨ v = 112
    ConstantValue := fun v => if v = 112 then 1 else 0
    defMap := fun l s =>
      if l = 1 ∧ s = 1 then some ⟨10, 0, 5, 6⟩
      else if l = 1 ∧ s = 3 then some ⟨30, 1, 15, 11⟩
      else none
    bbFallsThrough := fun b => b = 20
    bbNext := fun b => if b = 20 then 10 else 0 }

/-- State reached inside ComputeRange of the loop index (tree 3) of
envLoop at the moment the recursion enters the second use of the index,
tree 13: the index use, the phi, the back-edge argument and the addition
are on the search path in that order, the first phi argument is cached,
and five nodes have been charged to the budget. -/
def sMid13 : RCState :=
  { rangeMap := [(8, constRange 0)], overflowMap := [], path := [12, 9, 7, 3],
    budget := 95, curBndsChk := 2 }

/-- Program of the C1 counterexample: a bounds check (node 2) whose array
length tree (node 4) carries the array-length value number 100 of array
200, and one edge assertion (i < a.len) != 0 about the merged local,
tree 3, whose SSA value number is 101. -/
def envA : Env :=
  { defaultEnv with
    bcArrLen := fun n => if n = 2 then 4 else 0
    vnOf := fun n => if n = 4 then 100 else 0
    IsVNArrLen := fun v => v = 100
    GetArrForLenVn := fun v => if v = 100 then 200 else 0
    lclNum := fun _ => 1
    ssaNum := fun n => if n = 3 then 1 else 0
    lclSsaVN := fun l s => if l = 1 ∧ s = 1 then 101 else 0
    boundShape := fun v => if v = 302 then .arrLen 101 .LT 200 else .unrecognized }

/-- The assertion (i < a.len) != 0 of envA. -/
def aC1 : Assertion := ⟨false, 302, 0⟩

/-- Range whose upper limit is the constant ten, fed to the merger in the
C1 counterexample. -/
def rC1 : Range := ⟨unknownLimit, constLimit 10⟩

/-- Program of the C7 witness: a comma (node 1) over a bounds check (node
2) whose index tree 3 and length tree 4 both carry constant value numbers
with known values 2 and 5. -/
def envC7 : Env :=
  { defaultEnv with
    oper := fun n => if n = 1 then .COMMA else if n = 2 then .ARR_BOUNDS_CHECK else .OTHER
    op1 := fun n => if n = 1 then 2 else 0
    bcIndex := fun n => if n = 2 then 3 else 0
    bcArrLen := fun n => if n = 2 then 4 else 0
    vnOf := fun n => if n = 3 then 101 else if n = 4 then 100 else 0
    IsVNConstant := fun v => v = 101 ∨ v = 100
    optIsTreeKnownIntValue := fun n =>
      if n = 3 then some 2 else if n = 4 then some 5 else none }

/-- Program of the C9 witness: node 21 is a local, node 22 the constant
minus one, node 23 the constant four, node 24 an unrecognized operator;
the local has the constant value number 500, so it is monotonic. -/
def envM : Env :=
  { defaultEnv with
    oper := fun n =>
      if n = 21 then .LCL_VAR else if n = 22 then .CNS_INT
      else if n = 23 then .CNS_INT else .OTHER
    iconValue := fun n => if n = 22 then -1 else if n = 23 then 4 else 0
    vnOf := fun n => if n = 21 then 500 else 0
    IsVNConstant := fun v => v = 500 }

/-- Program of the C8 witness: two constant-bound assertions about the
local value number 101, one comparing against INT_MIN and one against
fifty. -/
def envB : Env :=
  { defaultEnv with
    boundShape := fun v =>
      if v = 310 then .constBound 101 .LT intMin
      else if v = 311 then .constBound 101 .LT 50
      else .unrecognized }

/-- Program and state of the C6 witness: operands 31 and 32 carry the
constant value numbers 600 and 601, and the range cache holds the ranges
[0, 5] and [0, 7] for them. -/
def envO : Env :=
  { defaultEnv with
    vnOf := fun n => if n = 31 then 600 else if n = 32 then 601 else 0
    IsVNConstant := fun v => v = 600 ∨ v = 601 }

/-- Cache state of the C6 witness. -/
def sO : RCState :=
  { rangeMap := [(31, ⟨constLimit 0, constLimit 5⟩), (32, ⟨constLimit 0, constLimit 7⟩)],
    overflowMap := [], path := [], budget := 10, curBndsChk := 0 }

/-- Program of the C4 witness: a comma (node 1) over a bounds check (node
2) whose index tree 3 has type LONG. -/
def envLong : Env :=
  { defaultEnv with
    oper := fun n => if n = 1 then .COMMA else if n = 2 then .ARR_BOUNDS_CHECK else .OTHER
    op1 := fun n => if n = 1 then 2 else 0
    bcIndex := fun n => if n = 2 then 3 else 0
    bcArrLen := fun n => if n = 2 then 4 else 0
    typ := fun n => if n = 3 then .LONG else .INT }

/-- Erasing the key of a pathInsert undoes the insertion pointwise on
occurrence counts: a recursion frame that adds an expression to the search
path and erases it on exit can only shrink the path. -/
theorem count_insert_erase {l l2 : List Nat} {a : Nat}
    (h : ∀ x, l2.count x ≤ (pathInsert l a).count x) (x : Nat) :
    (l2.erase a).count x ≤ l.count x := by
  by_cases hx : x = a
  · subst hx
    rw [List.count_erase_self]
    have hh := h x
    by_cases hm : x ∈ l
    · rw [pathInsert, if_pos hm] at hh
      omega
    · rw [pathInsert, if_neg hm, List.count_cons_self] at hh
      have h0 : l.count x = 0 := List.count_eq_zero.mpr hm
      omega
  · rw [List.count_erase_of_ne hx]
    have hh := h x
    by_cases hm : a ∈ l
    · rwa [pathInsert, if_pos hm] at hh
    · rwa [pathInsert, if_neg hm, List.count_cons_of_ne hx] at hh

/-- State invariant of the range engine: every function of the recursion
can only shrink the search path (pointwise on occurrence counts, so an
expression added by a frame is gone when the frame returns) and can only
decrease the visit budget. -/
theorem rangeEngineInv (env : Env) : ∀ fuel : Nat,
    (∀ block stmt expr monotonic s,
        (∀ x, (GetRange env fuel block stmt expr monotonic s).2.path.count x ≤
          s.path.count x)
        ∧ (GetRange env fuel block stmt expr monotonic s).2.budget ≤ s.budget)
    ∧ (∀ block stmt expr monotonic s,
        (∀ x, (ComputeRange env fuel block stmt expr monotonic s).2.path.count x ≤
          s.path.count x)
        ∧ (ComputeRange env fuel block stmt expr monotonic s).2.budget ≤ s.budget)
    ∧ (∀ block stmt expr monotonic s,
        (∀ x, (computeRangeBody env fuel block stmt expr monotonic s).2.path.count x ≤
          s.path.count x)
        ∧ (computeRangeBody env fuel block stmt expr monotonic s).2.budget ≤ s.budget)
    ∧ (∀ block stmt expr monotonic s,
        (∀ x, (ComputeRangeForLocalDef env fuel block stmt expr monotonic s).2.path.count x ≤
          s.path.count x)
        ∧ (ComputeRangeForLocalDef env fuel block stmt expr monotonic s).2.budget ≤ s.budget)
    ∧ (∀ block stmt op1 op2 monotonic s,
        (∀ x, (ComputeRangeForBinOp env fuel block stmt op1 op2 monotonic s).2.path.count x ≤
          s.path.count x)
        ∧ (ComputeRangeForBinOp env fuel block stmt op1 op2 monotonic s).2.budget ≤ s.budget)
    ∧ (∀ block stmt op monotonic s,
        (∀ x, (binOpOperandRange env fuel block stmt op monotonic s).2.path.count x ≤
          s.path.count x)
        ∧ (binOpOperandRange env fuel block stmt op monotonic s).2.budget ≤ s.budget)
    ∧ (∀ block stmt args monotonic s,
        (∀ x, (computePhiArgRanges env fuel block stmt args monotonic s).2.path.count x ≤
          s.path.count x)
        ∧ (computePhiArgRanges env fuel block stmt args monotonic s).2.budget ≤ s.budget) := by
  intro fuel
  induction fuel with
  | zero =>
      refine ⟨?_, ?_, ?_, ?_, ?_, ?_, ?_⟩ <;>
        (intros; exact ⟨fun _ => le_refl _, le_refl _⟩)
  | succ fuel ih =>
      obtain ⟨ihGR, ihCR, ihBody, ihLD, ihBO, ihOp, ihPA⟩ := ih
      refine ⟨?_, ?_, ?_, ?_, ?_, ?_, ?_⟩
      · intro block stmt expr monotonic s
        cases hl : lookupA s.rangeMap expr with
        | some r =>
            simp only [GetRange, hl]
            exact ⟨fun _ => le_refl _, le_refl _⟩
        | none =>
            simp only [GetRange, hl]
            exact ihCR block stmt expr monotonic s
      · intro block stmt expr monotonic s
        simp only [ComputeRange]
        constructor
        · intro x
          exact count_insert_erase (fun y => (ihBody block stmt expr monotonic _).1 y) x
        · refine le_trans (ihBody block stmt expr monotonic _).2 ?_
          dsimp only
          split
          · exact le_refl _
          · omega
      · intro block stmt expr monotonic s
        simp only [computeRangeBody]
        repeat' split
        all_goals
          first
            | exact ⟨fun _ => le_refl _, le_refl _⟩
            | exact ⟨fun x => (ihLD _ _ _ _ _).1 x, (ihLD _ _ _ _ _).2⟩
            | exact ⟨fun x => (ihBO _ _ _ _ _ _).1 x, (ihBO _ _ _ _ _ _).2⟩
            | exact ⟨fun x => (ihPA _ _ _ _ _).1 x, (ihPA _ _ _ _ _).2⟩
      · intro block stmt expr monotonic s
        simp only [ComputeRangeForLocalDef]
        cases hd : GetDef env (env.lclNum expr) (env.ssaNum expr) with
        | none =>
            simp only [hd]
            exact ⟨fun _ => le_refl _, le_refl _⟩
        | some loc =>
            simp only [hd]
            split
            · exact ⟨fun x => (ihGR _ _ _ _ _).1 x, (ihGR _ _ _ _ _).2⟩
            · exact ihBO _ _ _ _ _ _
            · exact ⟨fun _ => le_refl _, le_refl _⟩
      · intro block stmt op1 op2 monotonic s
        simp only [ComputeRangeForBinOp]
        exact ⟨fun x => le_trans ((ihOp _ _ _ _ _).1 x) ((ihOp _ _ _ _ _).1 x),
               le_trans (ihOp _ _ _ _ _).2 (ihOp _ _ _ _ _).2⟩
      · intro block stmt op monotonic s
        cases hl : lookupA s.rangeMap op with
        | some r =>
            simp only [binOpOperandRange, hl]
            exact ⟨fun _ => le_refl _, le_refl _⟩
        | none =>
            simp only [binOpOperandRange, hl]
            by_cases hm : op ∈ s.path
            · simp only [if_pos hm]
              exact ⟨fun _ => le_refl _, le_refl _⟩
            · simp only [if_neg hm]
              exact ihGR _ _ _ _ _
      · intro block stmt args monotonic s
        cases args with
        | nil =>
            simp only [computePhiArgRanges]
            exact ⟨fun _ => le_refl _, le_refl _⟩
        | cons a rest =>
            simp only [computePhiArgRanges]
            by_cases hm : a ∈ s.path
            · simp only [if_pos hm]
              exact ihPA _ _ _ _ _
            · simp only [if_neg hm]
              exact ⟨fun x => le_trans ((ihPA _ _ _ _ _).1 x) ((ihGR _ _ _ _ _).1 x),
                     le_trans (ihPA _ _ _ _ _).2 (ihGR _ _ _ _ _).2⟩

/-- The cache tail of DoesBinOpOverflow rewrites only the range cache: the
search path and the visit budget come out unchanged. -/
theorem binOpOverflowTail_state (env : Env) (block op1 op2 : Nat) (s2 : RCState) :
    (binOpOverflowTail env block op1 op2 s2).2.path = s2.path ∧
    (binOpOverflowTail env block op1 op2 s2).2.budget = s2.budget := by
  simp only [binOpOverflowTail]
  repeat' split
  all_goals exact ⟨rfl, rfl⟩

/-- State invariant of the overflow engine: every function of the
recursion can only shrink the search path (pointwise on occurrence counts)
and leaves the visit budget unchanged. -/
theorem overflowEngineInv (env : Env) : ∀ fuel : Nat,
    (∀ block stmt expr s,
        (∀ x, (DoesOverflow env fuel block stmt expr s).2.path.count x ≤ s.path.count x)
        ∧ (DoesOverflow env fuel block stmt expr s).2.budget = s.budget)
    ∧ (∀ block stmt expr s,
        (∀ x, (ComputeDoesOverflow env fuel block stmt expr s).2.path.count x ≤
          s.path.count x)
        ∧ (ComputeDoesOverflow env fuel block stmt expr s).2.budget = s.budget)
    ∧ (∀ block stmt expr s,
        (∀ x, (computeDoesOverflowBody env fuel block stmt expr s).2.path.count x ≤
          s.path.count x)
        ∧ (computeDoesOverflowBody env fuel block stmt expr s).2.budget = s.budget)
    ∧ (∀ block stmt expr s,
        (∀ x, (DoesVarDefOverflow env fuel block stmt expr s).2.path.count x ≤
          s.path.count x)
        ∧ (DoesVarDefOverflow env fuel block stmt expr s).2.budget = s.budget)
    ∧ (∀ block stmt op1 op2 s,
        (∀ x, (DoesBinOpOverflow env fuel block stmt op1 op2 s).2.path.count x ≤
          s.path.count x)
        ∧ (DoesBinOpOverflow env fuel block stmt op1 op2 s).2.budget = s.budget)
    ∧ (∀ block stmt args s,
        (∀ x, (DoesPhiOverflow env fuel block stmt args s).2.path.count x ≤ s.path.count x)
        ∧ (DoesPhiOverflow env fuel block stmt args s).2.budget = s.budget) := by
  intro fuel
  induction fuel with
  | zero =>
      refine ⟨?_, ?_, ?_, ?_, ?_, ?_⟩ <;>
        (intros; exact ⟨fun _ => le_refl _, by trivial⟩)
  | succ fuel ih =>
      obtain ⟨ihDO, ihCDO, ihBody, ihVD, ihBO, ihPhi⟩ := ih
      refine ⟨?_, ?_, ?_, ?_, ?_, ?_⟩
      · intro block stmt expr s
        cases hl : lookupA s.overflowMap expr with
        | some b =>
            simp only [DoesOverflow, hl]
            exact ⟨fun _ => le_refl _, by trivial⟩
        | none =>
            simp only [DoesOverflow, hl]
            exact ihCDO block stmt expr s
      · intro block stmt expr s
        simp only [ComputeDoesOverflow]
        constructor
        · intro x
          exact count_insert_erase (fun y => (ihBody block stmt expr _).1 y) x
        · exact (ihBody block stmt expr _).2
      · intro block stmt expr s
        simp only [computeDoesOverflowBody]
        repeat' split
        all_goals
          first
            | exact ⟨fun _ => le_refl _, by trivial⟩
            | exact ⟨fun x => (ihVD _ _ _ _).1 x, (ihVD _ _ _ _).2⟩
            | exact ⟨fun x => (ihBO _ _ _ _ _).1 x, (ihBO _ _ _ _ _).2⟩
            | exact ⟨fun x => (ihPhi _ _ _ _).1 x, (ihPhi _ _ _ _).2⟩
      · intro block stmt expr s
        simp only [DoesVarDefOverflow]
        cases hd : GetDef env (env.lclNum expr) (env.ssaNum expr) with
        | none =>
            simp only [hd]
            exact ⟨fun _ => le_refl _, by trivial⟩
        | some loc =>
            simp only [hd]
            split
            · exact ihDO _ _ _ _
            · exact ihBO _ _ _ _ _
            · exact ⟨fun _ => le_refl _, by trivial⟩
      · intro block stmt op1 op2 s
        simp only [DoesBinOpOverflow]
        by_cases hm1 : op1 ∈ s.path
        · simp only [if_pos hm1, Bool.false_eq_true, if_false]
          by_cases hm2 : op2 ∈ s.path
          · simp only [if_pos hm2, Bool.false_eq_true, if_false]
            refine ⟨fun x => ?_, ?_⟩
            · rw [(binOpOverflowTail_state env block op1 op2 s).1]
            · rw [(binOpOverflowTail_state env block op1 op2 s).2]
          · simp only [if_neg hm2]
            cases hov2 : (DoesOverflow env fuel block stmt op2 s).1 with
            | true =>
                simp only [hov2, eq_self_iff_true, if_true]
                exact ⟨fun x => (ihDO _ _ _ _).1 x, (ihDO _ _ _ _).2⟩
            | false =>
                simp only [hov2, Bool.false_eq_true, if_false]
                refine ⟨fun x => ?_, ?_⟩
                · rw [(binOpOverflowTail_state env block op1 op2 _).1]
                  exact (ihDO _ _ _ _).1 x
                · rw [(binOpOverflowTail_state env block op1 op2 _).2]
                  exact (ihDO _ _ _ _).2
        · simp only [if_neg hm1]
          cases hov1 : (DoesOverflow env fuel block stmt op1 s).1 with
          | true =>
              simp only [hov1, eq_self_iff_true, if_true]
              exact ⟨fun x => (ihDO _ _ _ _).1 x, (ihDO _ _ _ _).2⟩
          | false =>
              simp only [hov1, Bool.false_eq_true, if_false]
              by_cases hm2 : op2 ∈ (DoesOverflow env fuel block stmt op1 s).2.path
              · simp only [if_pos hm2, Bool.false_eq_true, if_false]
                refine ⟨fun x => ?_, ?_⟩
                · rw [(binOpOverflowTail_state env block op1 op2 _).1]
                  exact (ihDO _ _ _ _).1 x
                · rw [(binOpOverflowTail_state env block op1 op2 _).2]
                  exact (ihDO _ _ _ _).2
              · simp only [if_neg hm2]
                cases hov2 : (DoesOverflow env fuel block stmt op2
                    (DoesOverflow env fuel block stmt op1 s).2).1 with
                | true =>
                    simp only [hov2, eq_self_iff_true, if_true]
                    exact ⟨fun x => le_trans ((ihDO _ _ _ _).1 x) ((ihDO _ _ _ _).1 x),
                           (ihDO _ _ _ _).2.trans (ihDO _ _ _ _).2⟩
                | false =>
                    simp only [hov2, Bool.false_eq_true, if_false]
                    refine ⟨fun x => ?_, ?_⟩
                    · rw [(binOpOverflowTail_state env block op1 op2 _).1]
                      exact le_trans ((ihDO _ _ _ _).1 x) ((ihDO _ _ _ _).1 x)
                    · rw [(binOpOverflowTail_state env block op1 op2 _).2]
                      exact (ihDO _ _ _ _).2.trans (ihDO _ _ _ _).2
      · intro block stmt args s
        cases args with
        | nil =>
            simp only [DoesPhiOverflow]
            exact ⟨fun _ => le_refl _, by trivial⟩
        | cons a rest =>
            simp only [DoesPhiOverflow]
            by_cases hm : a ∈ s.path
            · simp only [if_pos hm]
              exact ihPhi _ _ _ _
            · simp only [if_neg hm]
              split
              · exact ihDO _ _ _ _
              · exact ⟨fun x => le_trans ((ihPhi _ _ _ _).1 x) ((ihDO _ _ _ _).1 x),
                       (ihPhi _ _ _ _).2.trans (ihDO _ _ _ _).2⟩

/-- State invariant of the monotonicity prover: the search path and the
visit budget are restored exactly on every exit, because the prover bails
out before inserting an expression that is already on the path. -/
theorem monoEngineInv (env : Env) : ∀ fuel : Nat,
    (∀ expr s, (IsMonotonicallyIncreasing env fuel expr s).2.path = s.path
        ∧ (IsMonotonicallyIncreasing env fuel expr s).2.budget = s.budget)
    ∧ (∀ expr s, (monotonicBody env fuel expr s).2.path = s.path
        ∧ (monotonicBody env fuel expr s).2.budget = s.budget)
    ∧ (∀ op1 op2 oper s,
        (IsBinOpMonotonicallyIncreasing env fuel op1 op2 oper s).2.path = s.path
        ∧ (IsBinOpMonotonicallyIncreasing env fuel op1 op2 oper s).2.budget = s.budget)
    ∧ (∀ op1 op2 oper s, (binOpMonotonicNorm env fuel op1 op2 oper s).2.path = s.path
        ∧ (binOpMonotonicNorm env fuel op1 op2 oper s).2.budget = s.budget)
    ∧ (∀ args s, (monotonicPhiArgs env fuel args s).2.path = s.path
        ∧ (monotonicPhiArgs env fuel args s).2.budget = s.budget) := by
  intro fuel
  induction fuel with
  | zero =>
      refine ⟨?_, ?_, ?_, ?_, ?_⟩ <;> (intros; exact ⟨by trivial, by trivial⟩)
  | succ fuel ih =>
      obtain ⟨ihM, ihBody, ihIB, ihN, ihP⟩ := ih
      refine ⟨?_, ?_, ?_, ?_, ?_⟩
      · intro expr s
        by_cases hm : expr ∈ s.path
        · simp only [IsMonotonicallyIncreasing, if_pos hm]
          exact ⟨by trivial, by trivial⟩
        · simp only [IsMonotonicallyIncreasing, if_neg hm]
          constructor
          · rw [(ihBody expr _).1]
            show (pathInsert s.path expr).erase expr = s.path
            rw [pathInsert, if_neg hm]
            exact List.erase_cons_head expr s.path
          · exact (ihBody expr _).2
      · intro expr s
        simp only [monotonicBody]
        repeat' split
        all_goals
          first
            | exact ⟨by trivial, by trivial⟩
            | exact ihM _ _
            | exact ihIB _ _ _ _
            | exact ihP _ _
      · intro op1 op2 oper s
        simp only [IsBinOpMonotonicallyIncreasing]
        split
        · exact ihN _ _ _ _
        · exact ihN _ _ _ _
      · intro op1 op2 oper s
        simp only [binOpMonotonicNorm]
        split
        · exact ⟨by trivial, by trivial⟩
        · split
          · cases hb : (IsMonotonicallyIncreasing env fuel op1 s).1 with
            | true =>
                simp only [hb, eq_self_iff_true, if_true]
                exact ⟨((ihM _ _).1).trans (ihM _ _).1, ((ihM _ _).2).trans (ihM _ _).2⟩
            | false =>
                simp only [hb, Bool.false_eq_true, if_false]
                exact ihM _ _
          · split
            · exact ihM _ _
            · exact ⟨by trivial, by trivial⟩
          · exact ⟨by trivial, by trivial⟩
      · intro args s
        cases args with
        | nil =>
            simp only [monotonicPhiArgs]
            exact ⟨by trivial, by trivial⟩
        | cons a rest =>
            simp only [monotonicPhiArgs]
            by_cases hm : a ∈ s.path
            · simp only [if_pos hm]
              exact ihP _ _
            · simp only [if_neg hm]
              cases hb : (IsMonotonicallyIncreasing env fuel a s).1 with
              | true =>
                  simp only [hb, eq_self_iff_true, if_true]
                  exact ⟨((ihP _ _).1).trans (ihM _ _).1, ((ihP _ _).2).trans (ihM _ _).2⟩
              | false =>
                  simp only [hb, Bool.false_eq_true, if_false]
                  exact ihM _ _

/-- Widening can only decrease the visit budget: the monotonicity prover
leaves it unchanged and the monotonic recomputation only decrements it. -/
theorem widen_budget (env : Env) (fuel : Nat) (block stmt tree : Nat) (s : RCState)
    (r : Range) : (Widen env fuel block stmt tree s r).2.budget ≤ s.budget := by
  rw [Widen]
  split
  · dsimp only
    split
    · refine le_trans ((rangeEngineInv env fuel).1 _ _ _ _ _).2 ?_
      exact le_of_eq ((monoEngineInv env fuel).1 _ _).2
    · exact le_of_eq ((monoEngineInv env fuel).1 _ _).2
  · exact le_refl _

/-- One bounds-check optimization can only decrease the visit budget. -/
theorem optRangeCheck_budget (env : Env) (fuel : Nat) (block stmt treeParent : Nat)
    (s : RCState) :
    (OptimizeRangeCheck env fuel block stmt treeParent s).1.budget ≤ s.budget := by
  rw [OptimizeRangeCheck]
  repeat' (first | split | dsimp only)
  all_goals
    first
      | exact le_refl _
      | exact ((rangeEngineInv env fuel).1 _ _ _ _ _).2
      | exact le_trans (le_of_eq ((overflowEngineInv env fuel).1 _ _ _ _).2)
          ((rangeEngineInv env fuel).1 _ _ _ _ _).2
      | exact le_trans (widen_budget env fuel _ _ _ _ _)
          (le_trans (le_of_eq ((overflowEngineInv env fuel).1 _ _ _ _).2)
            ((rangeEngineInv env fuel).1 _ _ _ _ _).2)

/-- C1, counterexample.  The claim states that when the current upper limit
is Constant and the new limit mentions an array the assertion is
discarded.  In envA the current upper limit of rC1 is Constant(10) and the
assertion extracts the limit Array(200), the length of the very array of
the bounds check (node 2); yet MergeEdgeAssertions does not discard the
assertion: it replaces the upper limit by BinOpArray(200, -1).  The
discard test of the source (line 665) compares the value number of the
incoming limit with the array-ref value number instead of testing whether
the limit mentions an array. -/
theorem C1_counterexample :
    extractRaw envA 101 aC1 = some (⟨.keArray, 200, 0⟩, .LT) ∧
    envA.GetArrForLenVn (envA.vnOf (envA.bcArrLen 2)) = 200 ∧
    rC1.uLimit.IsConstant = true ∧
    MergeEdgeAssertions envA 2 3 [aC1] rC1 = ⟨unknownLimit, ⟨.keBinOpArray, 200, -1⟩⟩ ∧
    MergeEdgeAssertions envA 2 3 [aC1] rC1 ≠ rC1 := by
  decide

/-- C1, amended: in MergeEdgeAssertions a new limit replaces a limit of the
range only under the following gates, all of which examine the current
upper limit (replacements of the lower limit are governed by the same
upper-limit gates, not by symmetric lower-limit conditions).  When the
current upper is Constant, the assertion is discarded iff the new limit's
value number differs from the array-ref value number of the bounds check
(in particular any limit over a different array is discarded and a limit
over the check's own array is applied).  When the current upper is Array
or BinOpArray over the check's own array, a new limit on any other value
number is discarded, and one on the same array is applied iff its constant
offset is strictly smaller.  When the current upper is any other form
(Dependent, Unknown, and the remaining variants), the incoming limit is
applied.  An applied limit replaces the upper limit under a less-than
operator and the lower limit under a greater-than operator, regardless of
the current lower limit. -/
theorem C1_theorem (arrRefVN : Nat) (limit : Limit) (cmp : Gop) (r : Range) :
    (r.uLimit.IsConstant = true → limit.vn ≠ arrRefVN →
        applyTighten arrRefVN limit cmp r = r)
    ∧ (r.uLimit.IsConstant = true → limit.vn = arrRefVN →
        applyTighten arrRefVN limit cmp r = applyCmp cmp limit r)
    ∧ ((r.uLimit.IsArray = true ∨ r.uLimit.IsBinOpArray = true) → r.uLimit.vn = arrRefVN →
        limit.vn ≠ arrRefVN → applyTighten arrRefVN limit cmp r = r)
    ∧ ((r.uLimit.IsArray = true ∨ r.uLimit.IsBinOpArray = true) → r.uLimit.vn = arrRefVN →
        limit.vn = arrRefVN →
        ((if r.uLimit.IsBinOpArray then r.uLimit.cns else 0) ≤
            (if limit.IsBinOpArray then limit.cns else 0) →
          applyTighten arrRefVN limit cmp r = r)
        ∧ ((if limit.IsBinOpArray then limit.cns else 0) <
            (if r.uLimit.IsBinOpArray then r.uLimit.cns else 0) →
          applyTighten arrRefVN limit cmp r = applyCmp cmp limit r))
    ∧ ((r.uLimit.IsArray = true ∨ r.uLimit.IsBinOpArray = true) → r.uLimit.vn ≠ arrRefVN →
        applyTighten arrRefVN limit cmp r = applyCmp cmp limit r)
    ∧ (r.uLimit.IsConstant = false → r.uLimit.IsArray = false → r.uLimit.IsBinOpArray = false →
        applyTighten arrRefVN limit cmp r = applyCmp cmp limit r)
    ∧ ((cmp = .GT ∨ cmp = .GE) →
        (applyCmp cmp limit r).lLimit = limit ∧ (applyCmp cmp limit r).uLimit = r.uLimit) := by
  obtain ⟨lo, up⟩ := r
  refine ⟨?_, ?_, ?_, ?_, ?_, ?_, ?_⟩
  · intro h1 h2
    simp [applyTighten, h1, h2]
  · intro h1 h2
    rcases up with ⟨t, v, c⟩
    cases t <;> simp_all [applyTighten, Limit.IsConstant, Limit.IsArray, Limit.IsBinOpArray]
  · intro h1 h2 h3
    rcases up with ⟨t, v, c⟩
    cases t <;> simp_all [applyTighten, Limit.IsConstant, Limit.IsArray, Limit.IsBinOpArray]
  · intro h1 h2 h3
    constructor
    · intro h4
      rcases up with ⟨t, v, c⟩
      cases t <;>
        simp_all [applyTighten, Limit.IsConstant, Limit.IsArray, Limit.IsBinOpArray]
    · intro h4
      rcases up with ⟨t, v, c⟩
      cases t <;>
        simp_all [applyTighten, Limit.IsConstant, Limit.IsArray, Limit.IsBinOpArray]
  · intro h1 h2
    rcases up with ⟨t, v, c⟩
    cases t <;> simp_all [applyTighten, Limit.IsConstant, Limit.IsArray, Limit.IsBinOpArray]
  · intro h1 h2 h3
    rcases up with ⟨t, v, c⟩
    cases t <;> simp_all [applyTighten, Limit.IsConstant, Limit.IsArray, Limit.IsBinOpArray]
  · rintro (rfl | rfl) <;> simp [applyCmp]

/-- C1, witness: the tightening gates evaluated at concrete inputs, one
for each clause of the amended rule. -/
theorem C1_witness :
    applyTighten 200 ⟨.keArray, 300, 0⟩ .LT ⟨unknownLimit, constLimit 10⟩ =
      ⟨unknownLimit, constLimit 10⟩
    ∧ applyTighten 200 ⟨.keArray, 200, 0⟩ .LT ⟨unknownLimit, constLimit 10⟩ =
      applyCmp .LT ⟨.keArray, 200, 0⟩ ⟨unknownLimit, constLimit 10⟩
    ∧ applyTighten 200 ⟨.keConstant, 0, 7⟩ .GE ⟨constLimit 5, ⟨.keBinOpArray, 200, -1⟩⟩ =
      ⟨constLimit 5, ⟨.keBinOpArray, 200, -1⟩⟩
    ∧ applyTighten 200 ⟨.keBinOpArray, 200, -1⟩ .LT ⟨unknownLimit, ⟨.keBinOpArray, 200, -1⟩⟩ =
      ⟨unknownLimit, ⟨.keBinOpArray, 200, -1⟩⟩
    ∧ applyTighten 200 ⟨.keBinOpArray, 200, -2⟩ .LT ⟨unknownLimit, ⟨.keBinOpArray, 200, -1⟩⟩ =
      applyCmp .LT ⟨.keBinOpArray, 200, -2⟩ ⟨unknownLimit, ⟨.keBinOpArray, 200, -1⟩⟩
    ∧ applyTighten 200 ⟨.keConstant, 0, 3⟩ .GE ⟨constLimit 5, unknownLimit⟩ =
      applyCmp .GE ⟨.keConstant, 0, 3⟩ ⟨constLimit 5, unknownLimit⟩
    ∧ (applyCmp .GE ⟨.keConstant, 0, 3⟩ ⟨constLimit 5, unknownLimit⟩).lLimit =
      ⟨.keConstant, 0, 3⟩ := by
  refine ⟨?_, ?_, ?_, ?_, ?_, ?_, ?_⟩
  · exact (C1_theorem 200 ⟨.keArray, 300, 0⟩ .LT ⟨unknownLimit, constLimit 10⟩).1
      (by decide) (by decide)
  · exact (C1_theorem 200 ⟨.keArray, 200, 0⟩ .LT ⟨unknownLimit, constLimit 10⟩).2.1
      (by decide) (by decide)
  · exact (C1_theorem 200 ⟨.keConstant, 0, 7⟩ .GE ⟨constLimit 5, ⟨.keBinOpArray, 200, -1⟩⟩).2.2.1
      (by decide) (by decide) (by decide)
  · exact ((C1_theorem 200 ⟨.keBinOpArray, 200, -1⟩ .LT
      ⟨unknownLimit, ⟨.keBinOpArray, 200, -1⟩⟩).2.2.2.1 (by decide) (by decide) (by decide)).1
      (by decide)
  · exact ((C1_theorem 200 ⟨.keBinOpArray, 200, -2⟩ .LT
      ⟨unknownLimit, ⟨.keBinOpArray, 200, -1⟩⟩).2.2.2.1 (by decide) (by decide) (by decide)).2
      (by decide)
  · exact (C1_theorem 200 ⟨.keConstant, 0, 3⟩ .GE ⟨constLimit 5, unknownLimit⟩).2.2.2.2.2.1
      (by decide) (by decide) (by decide)
  · exact ((C1_theorem 200 ⟨.keConstant, 0, 3⟩ .GE ⟨constLimit 5, unknownLimit⟩).2.2.2.2.2.2
      (Or.inr rfl)).1

/-- C5: BetweenBounds accepts an upper limit of the form
BinOpArray(arrRef, ucns) only when ucns is strictly negative: for every
range whose upper limit is BinOpArray with constant offset at least zero
(including zero) it returns false regardless of the lower limit, and
whenever it returns true on a BinOpArray upper limit the offset is
strictly negative. -/
theorem C5_theorem (env : Env) (r : Range) (upperTree : Nat)
    (h : r.uLimit.IsBinOpArray = true) :
    (0 ≤ r.uLimit.cns → BetweenBounds env r upperTree = false) ∧
    (BetweenBounds env r upperTree = true → r.uLimit.cns < 0) := by
  have hbody : ∀ (arrRefVN : Nat) (arrSize : Int),
      0 ≤ r.uLimit.cns → BetweenBounds.betweenBoundsBody r arrRefVN arrSize = false := by
    intro arrRefVN arrSize hc
    rw [BetweenBounds.betweenBoundsBody, if_pos h]
    split
    · rfl
    · simp only [Limit.GetConstant]
      rw [if_pos hc]
  constructor
  · intro hc
    rw [BetweenBounds]
    split
    · exact hbody _ _ hc
    · split
      · exact hbody _ _ hc
      · rfl
  · intro ht
    by_contra hlt
    have h0 : 0 ≤ r.uLimit.cns := by omega
    rw [BetweenBounds] at ht
    revert ht
    split
    · rw [hbody _ _ h0]
      exact fun h => by cases h
    · split
      · rw [hbody _ _ h0]
        exact fun h => by cases h
      · exact fun h => by cases h

/-- C5, witness: a range with upper limit BinOpArray(200, 0) over the very
array of the check is rejected whatever the lower limit. -/
theorem C5_witness :
    BetweenBounds envA ⟨constLimit 0, ⟨.keBinOpArray, 200, 0⟩⟩ 4 = false := by
  exact (C5_theorem envA ⟨constLimit 0, ⟨.keBinOpArray, 200, 0⟩⟩ 4 (by decide)).1 (by decide)

/-- C10: the pass analyzes, and can remove, only bounds-check nodes whose
immediate parent is a comma node: OptimizeRangeCheck leaves the state
untouched and removes nothing when the walked parent is not a comma or its
first operand is not a bounds check, and any invocation that removes
something was on a comma whose first operand is a bounds check. -/
theorem C10_theorem (env : Env) (fuel : Nat) (block stmt treeParent : Nat) (s : RCState) :
    (env.oper treeParent ≠ .COMMA →
        OptimizeRangeCheck env fuel block stmt treeParent s = (s, []))
    ∧ (env.oper (env.op1 treeParent) ≠ .ARR_BOUNDS_CHECK →
        OptimizeRangeCheck env fuel block stmt treeParent s = (s, []))
    ∧ ((OptimizeRangeCheck env fuel block stmt treeParent s).2 ≠ [] →
        env.oper treeParent = .COMMA ∧ env.oper (env.op1 treeParent) = .ARR_BOUNDS_CHECK) := by
  refine ⟨?_, ?_, ?_⟩
  · intro h
    simp [OptimizeRangeCheck, h]
  · intro h
    simp [OptimizeRangeCheck, h]
  · intro h
    by_cases c1 : env.oper treeParent = .COMMA
    · by_cases c2 : env.oper (env.op1 treeParent) = .ARR_BOUNDS_CHECK
      · exact ⟨c1, c2⟩
      · exact absurd (by simp [OptimizeRangeCheck, c1, c2]) h
    · exact absurd (by simp [OptimizeRangeCheck, c1]) h

/-- C10, witness: a bounds check sitting directly under a non-comma parent
is skipped with the state unchanged. -/
theorem C10_witness :
    OptimizeRangeCheck envC2 20 10 0 2 (initState 3) = (initState 3, []) ∧
    OptimizeRangeCheck envC2 20 10 0 3 (initState 3) = (initState 3, []) := by
  constructor
  · exact (C10_theorem envC2 20 10 0 2 (initState 3)).1 (by decide)
  · exact (C10_theorem envC2 20 10 0 3 (initState 3)).1 (by decide)

/-- C7: when both the index and the array length of a bounds check have
constant value numbers with known values c1 and c2 and 0 <= c1 < c2, the
check is removed on the constant fast path; the resulting state differs
from the input state only in the recorded current bounds check, so no
range computation, overflow analysis or widening has touched the caches,
the search path or the visit budget, and the removal needs no fuel at
all. -/
theorem C7_theorem (env : Env) (fuel : Nat) (block stmt treeParent : Nat) (s : RCState)
    (c1 c2 : Int)
    (hp : env.oper treeParent = .COMMA)
    (hb : env.oper (env.op1 treeParent) = .ARR_BOUNDS_CHECK)
    (hidxvn : env.IsVNConstant (env.vnOf (env.bcIndex (env.op1 treeParent))) = true)
    (hlenvn : env.IsVNConstant (env.vnOf (env.bcArrLen (env.op1 treeParent))) = true)
    (hidx : env.optIsTreeKnownIntValue (env.bcIndex (env.op1 treeParent)) = some c1)
    (hlen : env.optIsTreeKnownIntValue (env.bcArrLen (env.op1 treeParent)) = some c2)
    (h0 : 0 ≤ c1) (h12 : c1 < c2) :
    OptimizeRangeCheck env fuel block stmt treeParent s =
      ({ s with curBndsChk := env.op1 treeParent }, [treeParent]) := by
  have hc2 : 0 < c2 := by omega
  simp [OptimizeRangeCheck, hp, hb, hidxvn, hlenvn, hidx, hlen, hc2, h0, h12]

/-- C7, witness: the check of envC7 with index value 2 and length 5 is
removed with zero fuel, leaving every other state component untouched. -/
theorem C7_witness :
    OptimizeRangeCheck envC7 0 10 0 1 (initState 5) =
      ({ initState 5 with curBndsChk := 2 }, [1]) := by
  exact C7_theorem envC7 0 10 0 1 (initState 5) 2 5 (by decide) (by decide) (by decide)
    (by decide) (by decide) (by decide) (by decide) (by decide)

/-- C9: the monotonicity rule for a binary operation.  The operands are
normalized so that a GT_LCL_VAR second operand is swapped into first
position; a non-local first operand is not monotonic; two locals require
both monotonic in sequence; a local plus a constant requires the operation
to be an addition, the constant non-negative, and the local monotonic; and
in particular a local plus a strictly negative constant is never judged
monotonic. -/
theorem C9_theorem (env : Env) (fuel : Nat) (op1 op2 : Nat) (oper : Gop) (s : RCState) :
    (IsBinOpMonotonicallyIncreasing env (fuel + 1) op1 op2 oper s =
        if env.oper op2 = .LCL_VAR then binOpMonotonicNorm env fuel op2 op1 oper s
        else binOpMonotonicNorm env fuel op1 op2 oper s)
    ∧ (env.oper op1 ≠ .LCL_VAR → binOpMonotonicNorm env (fuel + 1) op1 op2 oper s = (false, s))
    ∧ (env.oper op1 = .LCL_VAR → env.oper op2 = .LCL_VAR →
        binOpMonotonicNorm env (fuel + 1) op1 op2 oper s =
          (let m1 := IsMonotonicallyIncreasing env fuel op1 s
           if m1.1 then IsMonotonicallyIncreasing env fuel op2 m1.2 else (false, m1.2)))
    ∧ (env.oper op1 = .LCL_VAR → env.oper op2 = .CNS_INT →
        binOpMonotonicNorm env (fuel + 1) op1 op2 oper s =
          (if oper = .ADD ∧ 0 ≤ env.iconValue op2 then
            IsMonotonicallyIncreasing env fuel op1 s
           else (false, s)))
    ∧ (env.oper op2 = .CNS_INT → env.iconValue op2 < 0 →
        (binOpMonotonicNorm env (fuel + 1) op1 op2 oper s).1 = false) := by
  refine ⟨rfl, ?_, ?_, ?_, ?_⟩
  · intro h
    simp [binOpMonotonicNorm, h]
  · intro h1 h2
    simp [binOpMonotonicNorm, h1, h2]
  · intro h1 h2
    simp [binOpMonotonicNorm, h1, h2]
  · intro h2 hneg
    rw [binOpMonotonicNorm]
    split
    · rfl
    · rw [h2]
      have : ¬(oper = .ADD ∧ 0 ≤ env.iconValue op2) := by
        rintro ⟨-, hge⟩
        omega
      rw [if_neg this]

/-- C9, witness: the rule evaluated on concrete operands of envM (node 21
a local, node 22 the constant minus one, node 23 the constant four, node
24 an unrecognized operator). -/
theorem C9_witness :
    binOpMonotonicNorm envM 6 24 22 .ADD (initState 0) = (false, initState 0)
    ∧ binOpMonotonicNorm envM 6 21 21 .ADD (initState 0) =
        (let m1 := IsMonotonicallyIncreasing envM 5 21 (initState 0)
         if m1.1 then IsMonotonicallyIncreasing envM 5 21 m1.2 else (false, m1.2))
    ∧ binOpMonotonicNorm envM 6 21 23 .ADD (initState 0) =
        (if (Gop.ADD = Gop.ADD ∧ (0:Int) ≤ envM.iconValue 23) then
          IsMonotonicallyIncreasing envM 5 21 (initState 0)
         else (false, initState 0))
    ∧ (binOpMonotonicNorm envM 6 21 22 .ADD (initState 0)).1 = false := by
  refine ⟨?_, ?_, ?_, ?_⟩
  · exact (C9_theorem envM 5 24 22 .ADD (initState 0)).2.1 (by decide)
  · exact (C9_theorem envM 5 21 21 .ADD (initState 0)).2.2.1 (by decide) (by decide)
  · exact (C9_theorem envM 5 21 23 .ADD (initState 0)).2.2.2.1 (by decide) (by decide)
  · exact (C9_theorem envM 5 21 22 .ADD (initState 0)).2.2.2.2 (by decide) (by decide)

/-- C8: for a strict less-than the merger subtracts one from the extracted
limit and for a strict greater-than it adds one; when the 32-bit
adjustment overflows the assertion is discarded and the range is left
unchanged, and otherwise the adjusted limit proceeds to the tightening
gates. -/
theorem C8_theorem (env : Env) (lclVN arrRefVN : Nat) (r : Range) (a : Assertion) (l : Limit) :
    (extractRaw env lclVN a = some (l, .LT) →
        (l.AddConstant (-1) = none → mergeStep env lclVN arrRefVN r a = r) ∧
        ∀ l2, l.AddConstant (-1) = some l2 →
          mergeStep env lclVN arrRefVN r a = applyTighten arrRefVN l2 .LT r)
    ∧ (extractRaw env lclVN a = some (l, .GT) →
        (l.AddConstant 1 = none → mergeStep env lclVN arrRefVN r a = r) ∧
        ∀ l2, l.AddConstant 1 = some l2 →
          mergeStep env lclVN arrRefVN r a = applyTighten arrRefVN l2 .GT r) := by
  constructor
  · intro h
    constructor
    · intro hnone
      simp [mergeStep, h, adjustLimit, hnone]
    · intro l2 hsome
      simp [mergeStep, h, adjustLimit, hsome]
  · intro h
    constructor
    · intro hnone
      simp [mergeStep, h, adjustLimit, hnone]
    · intro l2 hsome
      simp [mergeStep, h, adjustLimit, hsome]

/-- C8, witness: in envB the assertion (i < INT_MIN) != 0 would need the
upper limit INT_MIN minus one, the adjustment overflows and the range is
untouched, while (i < 50) != 0 tightens through the adjusted limit 49. -/
theorem C8_witness :
    mergeStep envB 101 200 unknownRange ⟨false, 310, 0⟩ = unknownRange
    ∧ mergeStep envB 101 200 unknownRange ⟨false, 311, 0⟩ =
        applyTighten 200 (constLimit 49) .LT unknownRange := by
  constructor
  · exact ((C8_theorem envB 101 200 unknownRange ⟨false, 310, 0⟩
      (constLimit intMin)).1 (by decide)).1 (by decide)
  · exact ((C8_theorem envB 101 200 unknownRange ⟨false, 311, 0⟩
      (constLimit 50)).1 (by decide)).2 (constLimit 49) (by decide)

/-- Inversion of the cache tail of DoesBinOpOverflow: a false verdict
means both operands have cached ranges in the resulting state and the
maxima of their upper limits add without overflow. -/
theorem binOpOverflowTail_false (env : Env) (block op1 op2 : Nat) (s2 : RCState)
    (h : (binOpOverflowTail env block op1 op2 s2).1 = false) :
    ∃ f1 f2 m1 m2,
      lookupA (binOpOverflowTail env block op1 op2 s2).2.rangeMap op1 = some f1 ∧
      lookupA (binOpOverflowTail env block op1 op2 s2).2.rangeMap op2 = some f2 ∧
      GetLimitMax env f1.uLimit = some m1 ∧ GetLimitMax env f2.uLimit = some m2 ∧
      IntAddOverflows m1 m2 = false := by
  rcases hres : binOpOverflowTail env block op1 op2 s2 with ⟨b, s'⟩
  rw [hres] at h
  simp only at h
  subst h
  simp only [binOpOverflowTail] at hres
  split at hres
  · split at hres
    · split at hres
      · rename_i f1 f2 hf1 hf2
        have hb := congrArg Prod.fst hres
        have hs := congrArg Prod.snd hres
        simp only at hb hs
        subst hs
        rw [AddOverflows] at hb
        split at hb
        · rename_i m1 m2 hm1 hm2
          exact ⟨f1, f2, m1, m2, hf1, hf2, hm1, hm2, hb⟩
        · cases hb
      · have hb := congrArg Prod.fst hres
        simp only at hb
        cases hb
    · have hb := congrArg Prod.fst hres
      simp only at hb
      cases hb
  · have hb := congrArg Prod.fst hres
    simp only at hb
    cases hb

/-- C6: the overflow engine reports a binary addition as non-overflowing
only when each operand off the current search path does not itself
overflow and the maxima of the two cached (and possibly assertion
re-merged) upper limits add without 32-bit overflow; the maximum of a
Constant limit is its value, of an Array limit the allocated length when
the new-array query knows it and INT_MAX otherwise, of a BinOpArray limit
the same base plus the offset, and an SsaVar or BinOp limit has a maximum
only when its value number is a 32-bit constant. -/
theorem C6_theorem (env : Env) (fuel : Nat) (block stmt op1 op2 : Nat) (s : RCState)
    (h : (DoesBinOpOverflow env (fuel + 1) block stmt op1 op2 s).1 = false) :
    (op1 ∉ s.path → (DoesOverflow env fuel block stmt op1 s).1 = false)
    ∧ (op1 ∈ s.path → op2 ∉ s.path → (DoesOverflow env fuel block stmt op2 s).1 = false)
    ∧ (op1 ∉ s.path → op2 ∉ (DoesOverflow env fuel block stmt op1 s).2.path →
        (DoesOverflow env fuel block stmt op2 (DoesOverflow env fuel block stmt op1 s).2).1 =
          false)
    ∧ (∃ f1 f2 m1 m2,
        lookupA (DoesBinOpOverflow env (fuel + 1) block stmt op1 op2 s).2.rangeMap op1 =
          some f1 ∧
        lookupA (DoesBinOpOverflow env (fuel + 1) block stmt op1 op2 s).2.rangeMap op2 =
          some f2 ∧
        GetLimitMax env f1.uLimit = some m1 ∧
        GetLimitMax env f2.uLimit = some m2 ∧
        IntAddOverflows m1 m2 = false)
    ∧ (∀ v c, GetLimitMax env ⟨.keConstant, v, c⟩ = some c)
    ∧ (∀ v c, GetLimitMax env ⟨.keArray, v, c⟩ =
        some (if GetArrLength env v ≤ 0 then intMax else GetArrLength env v))
    ∧ (∀ v c, IntAddOverflows (if GetArrLength env v ≤ 0 then intMax else GetArrLength env v)
          c = false →
        GetLimitMax env ⟨.keBinOpArray, v, c⟩ =
          some ((if GetArrLength env v ≤ 0 then intMax else GetArrLength env v) + c))
    ∧ (∀ v c m, GetLimitMax env ⟨.keSsaVar, v, c⟩ = some m →
        env.IsVNConstant v = true ∧ env.TypeOfVN v = .INT ∧ m = env.ConstantValue v)
    ∧ (∀ v c m, GetLimitMax env ⟨.keBinOp, v, c⟩ = some m →
        env.IsVNConstant v = true ∧ env.TypeOfVN v = .INT ∧
          m = env.ConstantValue v + c) := by
  refine ⟨?_, ?_, ?_, ?_, ?_, ?_, ?_, ?_, ?_⟩
  · intro hmem
    cases hov : (DoesOverflow env fuel block stmt op1 s).1 with
    | false => rfl
    | true =>
        exfalso
        have hone : (DoesBinOpOverflow env (fuel + 1) block stmt op1 op2 s).1 = true := by
          simp only [DoesBinOpOverflow]
          rw [if_neg hmem]
          simp [hov]
        rw [hone] at h
        cases h
  · intro hmem1 hmem2
    cases hov : (DoesOverflow env fuel block stmt op2 s).1 with
    | false => rfl
    | true =>
        exfalso
        have hone : (DoesBinOpOverflow env (fuel + 1) block stmt op1 op2 s).1 = true := by
          simp only [DoesBinOpOverflow]
          rw [if_pos hmem1]
          simp only [Bool.false_eq_true, if_false]
          rw [if_neg hmem2]
          simp [hov]
        rw [hone] at h
        cases h
  · intro hmem1 hmem2
    cases hov :
        (DoesOverflow env fuel block stmt op2 (DoesOverflow env fuel block stmt op1 s).2).1 with
    | false => rfl
    | true =>
        exfalso
        cases hov1 : (DoesOverflow env fuel block stmt op1 s).1 with
        | true =>
            have hone : (DoesBinOpOverflow env (fuel + 1) block stmt op1 op2 s).1 = true := by
              simp only [DoesBinOpOverflow]
              rw [if_neg hmem1]
              simp [hov1]
            rw [hone] at h
            cases h
        | false =>
            have hone : (DoesBinOpOverflow env (fuel + 1) block stmt op1 op2 s).1 = true := by
              simp only [DoesBinOpOverflow]
              rw [if_neg hmem1]
              simp only [hov1, Bool.false_eq_true, if_false]
              rw [if_neg hmem2]
              simp [hov]
            rw [hone] at h
            cases h
  · have hA : op1 ∉ s.path → (DoesOverflow env fuel block stmt op1 s).1 = false := by
      intro hmem
      cases hov : (DoesOverflow env fuel block stmt op1 s).1 with
      | false => rfl
      | true =>
          exfalso
          have hone : (DoesBinOpOverflow env (fuel + 1) block stmt op1 op2 s).1 = true := by
            simp only [DoesBinOpOverflow]
            rw [if_neg hmem]
            simp [hov]
          rw [hone] at h
          cases h
    have hkey : ∃ s2, DoesBinOpOverflow env (fuel + 1) block stmt op1 op2 s =
        binOpOverflowTail env block op1 op2 s2 := by
      by_cases hm1 : op1 ∈ s.path
      · by_cases hm2 : op2 ∈ s.path
        · refine ⟨s, ?_⟩
          simp only [DoesBinOpOverflow]
          rw [if_pos hm1, if_pos hm2]
          simp
        · cases hov2 : (DoesOverflow env fuel block stmt op2 s).1 with
          | true =>
              exfalso
              have hone : (DoesBinOpOverflow env (fuel + 1) block stmt op1 op2 s).1 = true := by
                simp only [DoesBinOpOverflow]
                rw [if_pos hm1]
                simp only [Bool.false_eq_true, if_false]
                rw [if_neg hm2]
                simp [hov2]
              rw [hone] at h
              cases h
          | false =>
              refine ⟨(DoesOverflow env fuel block stmt op2 s).2, ?_⟩
              simp only [DoesBinOpOverflow]
              rw [if_pos hm1]
              simp only [Bool.false_eq_true, if_false]
              rw [if_neg hm2]
              simp [hov2]
      · have hov1 := hA hm1
        by_cases hm2 : op2 ∈ (DoesOverflow env fuel block stmt op1 s).2.path
        · refine ⟨(DoesOverflow env fuel block stmt op1 s).2, ?_⟩
          simp only [DoesBinOpOverflow]
          rw [if_neg hm1]
          simp only [hov1, Bool.false_eq_true, if_false]
          rw [if_pos hm2]
          simp
        · cases hov2 : (DoesOverflow env fuel block stmt op2
              (DoesOverflow env fuel block stmt op1 s).2).1 with
          | true =>
              exfalso
              have hone : (DoesBinOpOverflow env (fuel + 1) block stmt op1 op2 s).1 = true := by
                simp only [DoesBinOpOverflow]
                rw [if_neg hm1]
                simp only [hov1, Bool.false_eq_true, if_false]
                rw [if_neg hm2]
                simp [hov2]
              rw [hone] at h
              cases h
          | false =>
              refine ⟨(DoesOverflow env fuel block stmt op2
                (DoesOverflow env fuel block stmt op1 s).2).2, ?_⟩
              simp only [DoesBinOpOverflow]
              rw [if_neg hm1]
              simp only [hov1, Bool.false_eq_true, if_false]
              rw [if_neg hm2]
              simp [hov2]
    obtain ⟨s2, hs2⟩ := hkey
    rw [hs2] at h ⊢
    exact binOpOverflowTail_false env block op1 op2 s2 h
  · intro v c
    rfl
  · intro v c
    rfl
  · intro v c hno
    simp [GetLimitMax, hno]
  · intro v c m hsome
    simp only [GetLimitMax] at hsome
    split at hsome
    · rename_i hc
      injection hsome with h2
      exact ⟨hc.1, hc.2, h2.symm⟩
    · cases hsome
  · intro v c m hsome
    simp only [GetLimitMax] at hsome
    split at hsome
    · rename_i hc
      split at hsome
      · cases hsome
      · injection hsome with h2
        exact ⟨hc.1, hc.2, h2.symm⟩
    · cases hsome

/-- C6, witness: the binary addition of the two cached operands of envO is
reported non-overflowing, and the inversion theorem recovers that the
first operand itself does not overflow. -/
theorem C6_witness :
    (DoesBinOpOverflow envO 6 10 0 31 32 sO).1 = false
    ∧ (DoesOverflow envO 5 10 0 31 sO).1 = false := by
  refine ⟨by decide, ?_⟩
  exact (C6_theorem envO 5 10 0 31 32 sO (by decide)).1 (by decide)

/-- C4: the range engine returns Range(Unknown) for every expression of
64-bit integer type (LONG or ULONG), whatever the fuel, the state and the
merge mode; and consequently a bounds check whose index has 64-bit type is
never removed, granted the spec contract of the constant fast-path query
(section 4.7 asks for 32-bit constant value numbers, so the external
optIsTreeKnownIntValue query reports no known 32-bit value for the 64-bit
index tree). -/
theorem C4_theorem (env : Env) :
    (∀ fuel block stmt expr monotonic s,
        (env.typ expr = .LONG ∨ env.typ expr = .ULONG) →
        (ComputeRange env fuel block stmt expr monotonic s).1 = unknownRange)
    ∧ (∀ fuel block stmt treeParent s,
        (env.typ (env.bcIndex (env.op1 treeParent)) = .LONG ∨
         env.typ (env.bcIndex (env.op1 treeParent)) = .ULONG) →
        env.optIsTreeKnownIntValue (env.bcIndex (env.op1 treeParent)) = none →
        (OptimizeRangeCheck env fuel block stmt treeParent s).2 = []) := by
  have hbody : ∀ fuel block stmt expr monotonic s,
      (env.typ expr = .LONG ∨ env.typ expr = .ULONG) →
      (computeRangeBody env fuel block stmt expr monotonic s).1 = unknownRange := by
    intro fuel block stmt expr monotonic s h
    cases fuel with
    | zero => rfl
    | succ fuel =>
        by_cases hb : s.budget ≤ 0
        · rw [computeRangeBody, if_pos hb]
        · by_cases hd : MAX_SEARCH_DEPTH < s.path.length
          · rw [computeRangeBody, if_neg hb, if_pos hd]
          · rw [computeRangeBody, if_neg hb, if_neg hd, if_pos h]
  have hCR : ∀ fuel block stmt expr monotonic s,
      (env.typ expr = .LONG ∨ env.typ expr = .ULONG) →
      (ComputeRange env fuel block stmt expr monotonic s).1 = unknownRange := by
    intro fuel block stmt expr monotonic s h
    cases fuel with
    | zero => rfl
    | succ fuel =>
        simp only [ComputeRange]
        exact hbody fuel block stmt expr monotonic _ h
  refine ⟨hCR, ?_⟩
  intro fuel block stmt treeParent s h64 hnone
  by_cases c1 : env.oper treeParent = .COMMA
  · by_cases c2 : env.oper (env.op1 treeParent) = .ARR_BOUNDS_CHECK
    · have hGR : ∀ f b st m om p bu cb,
          (GetRange env f b st (env.bcIndex (env.op1 treeParent)) m
            ⟨[], om, p, bu, cb⟩).1 = unknownRange := by
        intro f b st m om p bu cb
        cases f with
        | zero => rfl
        | succ f =>
            rw [GetRange]
            simp only [lookupA]
            exact hCR f b st _ m _ h64
      simp only [OptimizeRangeCheck, c1, c2, hnone]
      repeat' split
      all_goals
        first
          | rfl
          | (exfalso; simp_all [hGR, unknownRange, unknownLimit, Limit.IsUnknown])
    · simp [OptimizeRangeCheck, c2]
  · simp [OptimizeRangeCheck, c1]

/-- C4, witness: the bounds check of envLong has a LONG index and is
retained. -/
theorem C4_witness :
    (ComputeRange envLong 5 10 0 3 false (initState 8)).1 = unknownRange
    ∧ (OptimizeRangeCheck envLong 5 10 0 1 (initState 8)).2 = [] := by
  constructor
  · exact (C4_theorem envLong).1 5 10 0 3 false (initState 8) (Or.inl (by decide))
  · exact (C4_theorem envLong).2 5 10 0 1 (initState 8) (Or.inl (by decide)) (by decide)

/-- C3 (amended): every recursive call of the range engine and the overflow
engine can only shrink the SearchPath — the result path is a sub-multiset of
the entry path, and an expression absent at entry is absent at exit (so the
expression the frame itself inserted is always released) — and the
monotonicity prover restores the SearchPath exactly. The original claim of
exact membership preservation for ComputeRange and ComputeDoesOverflow is
refuted by the counterexample: a re-entrant visit of an expression already
on the path erases it, so membership can strictly shrink across a call. -/
theorem C3_theorem (env : Env) (fuel : Nat) (block stmt expr : Nat) (monotonic : Bool)
    (s : RCState) :
    ((ComputeRange env fuel block stmt expr monotonic s).2.path ⊆ s.path
      ∧ (expr ∉ s.path → expr ∉ (ComputeRange env fuel block stmt expr monotonic s).2.path))
    ∧ ((ComputeDoesOverflow env fuel block stmt expr s).2.path ⊆ s.path
      ∧ (expr ∉ s.path → expr ∉ (ComputeDoesOverflow env fuel block stmt expr s).2.path))
    ∧ (IsMonotonicallyIncreasing env fuel expr s).2.path = s.path := by
  have hCR := ((rangeEngineInv env fuel).2.1 block stmt expr monotonic s).1
  have hDO := ((overflowEngineInv env fuel).2.1 block stmt expr s).1
  refine ⟨⟨?_, ?_⟩, ⟨?_, ?_⟩, ((monoEngineInv env fuel).1 expr s).1⟩
  · intro a ha
    exact List.count_pos_iff.mp (lt_of_lt_of_le (List.count_pos_iff.mpr ha) (hCR a))
  · intro hmem hmem2
    have h0 : s.path.count expr = 0 := List.count_eq_zero.mpr hmem
    have h1 := hCR expr
    rw [h0, Nat.le_zero] at h1
    exact (List.count_eq_zero.mp h1) hmem2
  · intro a ha
    exact List.count_pos_iff.mp (lt_of_lt_of_le (List.count_pos_iff.mpr ha) (hDO a))
  · intro hmem hmem2
    have h0 : s.path.count expr = 0 := List.count_eq_zero.mpr hmem
    have h1 := hDO expr
    rw [h0, Nat.le_zero] at h1
    exact (List.count_eq_zero.mp h1) hmem2

/-- C3 counterexample: in the canonical loop environment, computing the range
of the second use of the loop variable while the phi is already on the
SearchPath returns with the phi erased from the path: the exit path [12, 9, 3]
differs from the entry path [12, 9, 7, 3], refuting exact membership
preservation. -/
theorem C3_counterexample :
    sMid13.path = [12, 9, 7, 3]
    ∧ (ComputeRange envLoop 40 10 0 13 false sMid13).2.path = [12, 9, 3]
    ∧ (ComputeRange envLoop 40 10 0 13 false sMid13).2.path ≠ sMid13.path := by
  refine ⟨by decide, by decide, by decide⟩

/-- Witness for C3: instantiating the release property at the canonical loop
environment, with both absence hypotheses discharged by evaluation. -/
theorem C3_witness :
    13 ∉ (ComputeRange envLoop 40 10 0 13 false sMid13).2.path
    ∧ 13 ∉ (ComputeDoesOverflow envLoop 40 10 0 13 sMid13).2.path := by
  exact ⟨(C3_theorem envLoop 40 10 0 13 false sMid13).1.2 (by decide),
    (C3_theorem envLoop 40 10 0 13 false sMid13).2.1.2 (by decide)⟩

/-- C2 (amended): once the visit budget is exhausted, every subsequent tree,
statement and block in the method is skipped with the state unchanged and no
check removed, and a single check optimization never increases the budget.
The original claim that the check in progress at the moment of exhaustion is
always decided "keep" is refuted by the counterexample: assertion merging can
resurrect an over-budget Unknown range, so the in-flight check can still be
removed after the budget crosses zero. -/
theorem C2_theorem (env : Env) (fuel : Nat) :
    (∀ block stmt ts s, s.budget ≤ 0 →
        OptimizeRangeChecksTrees env fuel block stmt ts s = (s, []))
    ∧ (∀ block ss s, s.budget ≤ 0 →
        OptimizeRangeChecksStmts env fuel block ss s = (s, []))
    ∧ (∀ bs s, s.budget ≤ 0 →
        OptimizeRangeChecksBlocks env fuel bs s = (s, []))
    ∧ (∀ block stmt treeParent s,
        (OptimizeRangeCheck env fuel block stmt treeParent s).1.budget ≤ s.budget) := by
  have htrees : ∀ block stmt ts s, s.budget ≤ (0 : Int) →
      OptimizeRangeChecksTrees env fuel block stmt ts s = (s, []) := by
    intro block stmt ts s h
    cases ts with
    | nil => rfl
    | cons t ts => simp only [OptimizeRangeChecksTrees, if_pos h]
  have hstmts : ∀ block ss s, s.budget ≤ (0 : Int) →
      OptimizeRangeChecksStmts env fuel block ss s = (s, []) := by
    intro block ss
    induction ss with
    | nil => intro s h; rfl
    | cons st rest ih =>
        intro s h
        simp [OptimizeRangeChecksStmts, htrees block st (env.treesOf st) s h, ih s h]
  have hblocks : ∀ bs s, s.budget ≤ (0 : Int) →
      OptimizeRangeChecksBlocks env fuel bs s = (s, []) := by
    intro bs
    induction bs with
    | nil => intro s h; rfl
    | cons b rest ih =>
        intro s h
        simp [OptimizeRangeChecksBlocks, hstmts b (env.stmtsOf b) s h, ih s h]
  exact ⟨htrees, hstmts, hblocks,
    fun block stmt treeParent s => optRangeCheck_budget env fuel block stmt treeParent s⟩

/-- C2 counterexample: starting with a positive budget of 3, the check in
progress exhausts the budget during its own range computation (final budget
is not positive) and is nevertheless removed, refuting the claim that the
in-flight check at the moment of exhaustion is always kept. -/
theorem C2_counterexample :
    0 < (initState 3).budget
    ∧ (OptimizeRangeCheck envC2 20 10 0 1 (initState 3)).2 = [1]
    ∧ (OptimizeRangeCheck envC2 20 10 0 1 (initState 3)).1.budget ≤ 0 := by
  refine ⟨by decide, by decide, by decide⟩

/-- Witness for C2: the skip behaviour instantiated at an exhausted state for
each walk level, with the budget hypotheses discharged by evaluation, plus the
budget monotonicity at the concrete counterexample inputs. -/
theorem C2_witness :
    OptimizeRangeChecksTrees envC2 20 10 0 [1] (initState 0) = (initState 0, [])
    ∧ OptimizeRangeChecksStmts envC2 20 10 [0] (initState 0) = (initState 0, [])
    ∧ OptimizeRangeChecksBlocks envC2 20 [10] (initState 0) = (initState 0, [])
    ∧ (OptimizeRangeCheck envC2 20 10 0 1 (initState 3)).1.budget ≤ (initState 3).budget := by
  exact ⟨(C2_theorem envC2 20).1 10 0 [1] (initState 0) (by decide),
    (C2_theorem envC2 20).2.1 10 [0] (initState 0) (by decide),
    (C2_theorem envC2 20).2.2.1 [10] (initState 0) (by decide),
    (C2_theorem envC2 20).2.2.2 10 0 1 (initState 3)⟩

end RC
